import Mathlib

/-!
# Verification of the narration-to-event grammar parser (`backend/parser.py`)

Shallow embedding of the deterministic transcript parser: segment intake,
phrase normalization, the three fragment matchers (first touch, on-ball
action, post-loss reaction), the possession/state tracker, and the event
builder.  Python strings are modelled as `List Char` / `String`, floats as
`ℚ`, dict-based events as a `structure` whose optional keys are `Option`
fields, and the one place the source can raise (`float(...)` inside
`_to_segment`) as `Except Unit`.
-/

namespace SoccerParser

/-- Python `\s` (ASCII fragment): the whitespace class used by `re` and
`str.strip()` / `str.split()` on the inputs in scope. -/
def is_space (c : Char) : Bool :=
  c = ' ' ∨ c = '\t' ∨ c = '\n' ∨ c = '\r' ∨ c = '\x0b' ∨ c = '\x0c'

/-- Python `\w` (ASCII fragment), used for `\b` word boundaries. -/
def is_word (c : Char) : Bool :=
  ('a' ≤ c ∧ c ≤ 'z') ∨ ('A' ≤ c ∧ c ≤ 'Z') ∨ ('0' ≤ c ∧ c ≤ '9') ∨ c = '_'

/-- `[A-Za-z0-9]`, the player-token class of the three grammars. -/
def is_alnum (c : Char) : Bool :=
  ('a' ≤ c ∧ c ≤ 'z') ∨ ('A' ≤ c ∧ c ≤ 'Z') ∨ ('0' ≤ c ∧ c ≤ '9')

/-- ASCII `str.lower` on one character (the narration grammar is ASCII). -/
def lower_char (c : Char) : Char := c.toLower

/-- Case-insensitive character comparison against an (already lowercase)
pattern character, for the `re.IGNORECASE` grammars. -/
def ci_char (input pat : Char) : Bool := lower_char input = pat

/-- `str.strip()` (whitespace, both ends) on a character list. -/
def strip_ws (cs : List Char) : List Char :=
  ((cs.dropWhile is_space).reverse.dropWhile is_space).reverse

/-- `str.strip(set)` for an explicit character set, both ends. -/
def strip_set (bad : Char → Bool) (cs : List Char) : List Char :=
  ((cs.dropWhile bad).reverse.dropWhile bad).reverse

/-- `str.rstrip(set)`: strip the character set from the right end only. -/
def rstrip_set (bad : Char → Bool) (cs : List Char) : List Char :=
  (cs.reverse.dropWhile bad).reverse

/-- `str.startswith` on character lists. -/
def starts_with : List Char → List Char → Bool
  | [], _ => true
  | _ :: _, [] => false
  | p :: ps, c :: cs => p = c && starts_with ps cs

/-- Substring containment (`needle in haystack` on Python strings). -/
def has_sub (needle : List Char) : List Char → Bool
  | [] => starts_with needle []
  | c :: cs => starts_with needle (c :: cs) || has_sub needle cs

/-- A JSON-ish scalar, the value universe for raw segment dicts fed to
`parse_transcript_segments` (numeric, string, or null/absent-typed). -/
inductive JsonVal where
  | num (q : ℚ)
  | str (s : String)
  | null
  deriving Repr, DecidableEq

/-- Raw input dict for one transcript segment; `none` models an absent key. -/
structure RawSegment where
  start : Option JsonVal := none
  stop : Option JsonVal := none
  text : Option JsonVal := none
  deriving Repr, DecidableEq

/-- `@dataclass Segment` from the source. -/
structure Segment where
  start : ℚ
  stop : ℚ
  text : String
  deriving Repr, DecidableEq

def digits_to_nat (cs : List Char) : Nat :=
  cs.foldl (fun acc c => acc * 10 + (c.toNat - '0'.toNat)) 0

/-- Python `float(string)` on the decimal-literal fragment of its grammar
(optional sign, integer/fraction digits).  Exponents, `inf` and `nan` are
outside the narration data in scope; anything not matching the modelled
grammar is a conversion failure, as in CPython. -/
def parse_float_lit (cs : List Char) : Option ℚ :=
  let t := strip_ws cs
  let signed : ℚ × List Char :=
    match t with
    | '-' :: r => (-1, r)
    | '+' :: r => (1, r)
    | _ => (1, t)
  let ip := signed.2.takeWhile Char.isDigit
  let rest := signed.2.dropWhile Char.isDigit
  match rest with
  | [] => if ip.isEmpty then none else some (signed.1 * digits_to_nat ip)
  | '.' :: r =>
      let fp := r.takeWhile Char.isDigit
      let rest2 := r.dropWhile Char.isDigit
      if rest2.isEmpty && !(ip.isEmpty && fp.isEmpty) then
        some (signed.1 * ((digits_to_nat ip : ℚ) +
          (digits_to_nat fp : ℚ) / ((10 : ℚ) ^ fp.length)))
      else none
  | _ => none

/-- Python `float(value)` for the modelled value universe; `.error` is a
raised `TypeError`/`ValueError`. -/
def py_float (v : JsonVal) : Except Unit ℚ :=
  match v with
  | .num q => .ok q
  | .str s =>
      match parse_float_lit s.toList with
      | some q => .ok q
      | none => .error ()
  | .null => .error ()

/-- Python `str(value)` for the modelled value universe (never raises). -/
def py_str (v : JsonVal) : String :=
  match v with
  | .num q => toString q
  | .str s => s
  | .null => "None"

/-- `_to_segment`: `Segment(start=float(data.get("start", 0.0)),
end=float(data.get("end", 0.0)), text=str(data.get("text", "")))`.
A failing `float(...)` raises out of the whole parse. -/
def to_segment (data : RawSegment) : Except Unit Segment := do
  let s ← py_float (data.start.getD (.num 0))
  let e ← py_float (data.stop.getD (.num 0))
  .ok { start := s, stop := e, text := py_str (data.text.getD (.str "")) }

/-- `@dataclass ParserState` from the source. -/
structure ParserState where
  match_id : String
  period : String
  offset_seconds : ℚ := 0
  event_counter : Nat := 0
  last_loss_event_id : Option String := none
  current_possession_id : Nat := 0
  possession_owner_team : Option String := none
  possession_open : Bool := false
  deriving Repr, DecidableEq

/-- `ParserState.next_event_id`: bump the counter, return the new state and
the id `f"{match_id}-{event_counter}"`. -/
def ParserState.next_event_id (st : ParserState) : ParserState × String :=
  ({ st with event_counter := st.event_counter + 1 },
    st.match_id ++ "-" ++ toString (st.event_counter + 1))

/-- `ParserState.start_or_continue_possession`. -/
def ParserState.start_or_continue_possession (st : ParserState) (team : String) :
    ParserState × String :=
  let st1 :=
    if st.possession_open = false ∨ st.possession_owner_team ≠ some team then
      { st with current_possession_id := st.current_possession_id + 1,
                possession_owner_team := some team }
    else st
  ({ st1 with possession_open := true }, toString st1.current_possession_id)

/-- `ParserState.end_possession`. -/
def ParserState.end_possession (st : ParserState) : ParserState :=
  { st with possession_open := false, possession_owner_team := none }

/-- One output event dict.  Keys that `_build_base_event` always writes are
plain fields; family-specific keys added by `event.update({...})` are wrapped
in an outer `Option` (`none` = key absent), with nullable values keeping an
inner `Option`. -/
structure Event where
  event_id : String
  match_id : String
  period : String
  video_time_s : ℚ
  team : String
  player_id : Option String := none
  player_name : Option String := none
  player_jersey_number : String
  player_role : Option String := none
  event_type : String
  possession_id : Option String := none
  sequence_id : Option String := none
  source_phrase : String
  zone_start : Option String := none
  zone_stop : Option String := none
  tags : Option String := none
  comment : Option String := none
  first_touch_quality : Option String := none
  first_touch_result : Option String := none
  possession_after_touch : Option String := none
  maintained_possession_bool : Option Bool := none
  touch_count_before_action : Option String := none
  on_ball_action_type : Option String := none
  carry_flag : Option Bool := none
  pass_intent : Option (Option String) := none
  action_outcome_team : Option String := none
  action_outcome_detail : Option String := none
  next_possession_team : Option String := none
  trigger_event_id : Option (Option String) := none
  post_loss_behaviour : Option String := none
  post_loss_outcome : Option String := none
  post_loss_effort_intensity : Option String := none
  deriving Repr, DecidableEq

/-! ## Normalizer (`_normalize_phrase`, `_split_segment_text`) -/

/-- `re.sub(r"\s+", " ", s)`: collapse every maximal whitespace run to one
space.  `in_run` records whether the previous character was part of a
whitespace run already replaced. -/
def collapse_go (in_run : Bool) : List Char → List Char
  | [] => []
  | c :: cs =>
      if is_space c then
        if in_run then collapse_go true cs else ' ' :: collapse_go true cs
      else c :: collapse_go false cs

def collapse_ws (cs : List Char) : List Char := collapse_go false cs

/-- One token of a rewrite pattern: a literal character or a `\s+` gap. -/
inductive PatTok where
  | lit (c : Char)
  | gap
  deriving Repr, DecidableEq

/-- Match a rewrite pattern at the head of the input, returning the unmatched
rest.  `\s+` gaps are matched maximally, which coincides with the regex
semantics here because every gap in the source patterns is followed by a
non-whitespace literal. -/
def match_pat : List PatTok → List Char → Option (List Char)
  | [], cs => some cs
  | .lit _ :: _, [] => none
  | .lit p :: ps, c :: cs => if c = p then match_pat ps cs else none
  | .gap :: ps, cs =>
      match cs with
      | [] => none
      | c :: cs' =>
          if is_space c then match_pat ps (cs'.dropWhile is_space) else none

theorem match_pat_suffix : ∀ (ps : List PatTok) (cs rest : List Char),
    match_pat ps cs = some rest → rest.IsSuffix cs
  | [], cs, rest, h => by
      simp only [match_pat, Option.some.injEq] at h
      exact h ▸ List.suffix_refl cs
  | .lit p :: ps, [], rest, h => by simp [match_pat] at h
  | .lit p :: ps, c :: cs, rest, h => by
      simp only [match_pat] at h
      split at h
      · exact (match_pat_suffix ps cs rest h).trans (List.suffix_cons c cs)
      · exact absurd h (by simp)
  | .gap :: ps, [], rest, h => by simp [match_pat] at h
  | .gap :: ps, c :: cs, rest, h => by
      simp only [match_pat] at h
      split at h
      · exact ((match_pat_suffix ps _ rest h).trans
          (List.dropWhile_suffix is_space)).trans (List.suffix_cons c cs)
      · exact absurd h (by simp)

theorem match_pat_cons_lt (p : PatTok) (ps : List PatTok) (c : Char)
    (cs rest : List Char) (h : match_pat (p :: ps) (c :: cs) = some rest) :
    rest.length < (c :: cs).length := by
  cases p with
  | lit p =>
      simp only [match_pat] at h
      split at h
      · exact Nat.lt_succ_of_le (match_pat_suffix ps cs rest h).length_le
      · exact absurd h (by simp)
  | gap =>
      simp only [match_pat] at h
      split at h
      · exact Nat.lt_succ_of_le ((match_pat_suffix ps _ rest h).length_le.trans
          ((List.dropWhile_suffix is_space).length_le))
      · exact absurd h (by simp)

/-- `\b` holds before the (word-character-initial) pattern: previous original
character absent or not a word character. -/
def bd_before (prev : Option Char) : Bool :=
  match prev with
  | none => true
  | some c => !is_word c

/-- `\b` holds after the (word-character-final) pattern: next original
character absent or not a word character. -/
def bd_after (rest : List Char) : Bool :=
  match rest.head? with
  | none => true
  | some c => !is_word c

/-- `re.sub(pattern, repl, s)` for a `\b…\b`-delimited rewrite pattern:
left-to-right scan, non-overlapping, boundaries judged on the original
characters (`prev` is the original character before the scan position).
`skip` counts original characters of an already-replaced match still to be
consumed; while positive, characters are dropped (their text was replaced)
but still feed `prev`, reproducing `re.sub`'s boundary semantics on the
original string. -/
def sub_go (p0 : PatTok) (ps : List PatTok) (repl : List Char) :
    Nat → Option Char → List Char → List Char
  | _ + 1, _, [] => []
  | n + 1, _, c :: cs => sub_go p0 ps repl n (some c) cs
  | 0, _, [] => []
  | 0, prev, c :: cs =>
      match match_pat (p0 :: ps) (c :: cs) with
      | some rest =>
          if bd_before prev && bd_after rest then
            repl ++
              sub_go p0 ps repl ((c :: cs).length - rest.length - 1) (some c) cs
          else c :: sub_go p0 ps repl 0 (some c) cs
      | none => c :: sub_go p0 ps repl 0 (some c) cs

def sub_bd (p0 : PatTok) (ps : List PatTok) (repl : List Char)
    (prev : Option Char) (cs : List Char) : List Char :=
  sub_go p0 ps repl 0 prev cs

/-- Spell a whitespace-gapped word sequence as a rewrite pattern, e.g.
`"one touch"` ↦ `one\s+touch`. -/
def lit_toks (s : String) : List PatTok :=
  s.toList.map (fun c => if c = ' ' then PatTok.gap else PatTok.lit c)

/-- `re.sub` wrapper taking the pattern as a gapped word string. -/
def sub_word (pat : String) (repl : String) (cs : List Char) : List Char :=
  match lit_toks pat with
  | [] => cs
  | p0 :: ps => sub_bd p0 ps repl.toList none cs

/-- The `" .!?"` character set of `_normalize_phrase`'s `strip`. -/
def sentence_punct (c : Char) : Bool :=
  c = ' ' ∨ c = '.' ∨ c = '!' ∨ c = '?'

/-- `_normalize_phrase`, stage for stage: lowercase; replace the en dash
(U+2013) with a hyphen (`"–".replace`); `[,:;]` to spaces; collapse
whitespace; strip `" .!?"`; hyphenate spelled touch counts; rewrite
`carry pass`; final `strip()`. -/
def normalize_phrase (text : String) : String :=
  let s1 := text.toList.map lower_char
  let s2 := s1.map (fun c => if c = '–' then '-' else c)
  let s3 := s2.map (fun c => if c = ',' ∨ c = ':' ∨ c = ';' then ' ' else c)
  let s4 := collapse_ws s3
  let s5 := strip_set sentence_punct s4
  let s6 := sub_word "one touch" "one-touch" s5
  let s7 := sub_word "two touch" "two-touch" s6
  let s8 := sub_word "three plus touch" "three-plus-touch" s7
  let s9 := sub_word "carry pass" "carry then pass" s8
  String.mk (strip_ws s9)

/-- The scan behind `re.split(r"(?<=[.!?])\s+", stripped)`: cut at each
maximal whitespace run directly preceded by sentence punctuation.
`skipping` is true while inside the whitespace run being consumed by the
split pattern. -/
def split_go (skipping : Bool) (prev : Option Char) (acc : List Char) :
    List Char → List (List Char)
  | [] => [acc.reverse]
  | c :: cs =>
      if skipping then
        if is_space c then split_go true none acc cs
        else split_go false (some c) (c :: acc) cs
      else if is_space c ∧ (prev = some '.' ∨ prev = some '!' ∨ prev = some '?')
      then acc.reverse :: split_go true none [] cs
      else split_go false (some c) (c :: acc) cs

/-- `re.split(r"(?<=[.!?])\s+", stripped)`. -/
def split_sentences (cs : List Char) : List (List Char) :=
  split_go false none [] cs

/-- The continuation-phrase tuple from `_split_segment_text`. -/
def connectors : List String :=
  ["through ball", "completed to", "intercepted", "wins it back",
   "safe recycle", "line breaking", "switch of play", "service into box",
   "token pressure", "immediate press", "track runner", "no effect",
   "negative effect", "on target", "off target", "blocked", "out for"]

/-- `str.startswith(tuple)`. -/
def starts_with_any (alts : List String) (cs : List Char) : Bool :=
  alts.any (fun a => starts_with a.toList cs)

/-- The candidate loop of `_split_segment_text`: strip each sentence, drop
blanks, and glue continuation phrases onto the previous fragment
(`fragments[-1].rstrip('. ') + " " + cleaned`). -/
def join_fragments (sentences : List (List Char)) : List (List Char) :=
  sentences.foldl
    (fun frags candidate =>
      let cleaned := strip_ws candidate
      if cleaned.isEmpty then frags
      else
        match frags.getLast? with
        | some last =>
            if starts_with_any connectors (cleaned.map lower_char) then
              frags.dropLast ++
                [rstrip_set (fun c => c = '.' ∨ c = ' ') last ++ ' ' :: cleaned]
            else frags ++ [cleaned]
        | none => frags ++ [cleaned])
    []

/-- `_split_segment_text`. -/
def split_segment_text (text : String) : List String :=
  let stripped := strip_ws text.toList
  if stripped.isEmpty then []
  else (join_fragments (split_sentences stripped)).map String.mk

/-! ## Pattern grammar (the `re` patterns, as backtracking matchers)

Each compiled regex of the source becomes a matcher built from small
continuation combinators whose alternative order and greediness mirror the
Python engine (leftmost-greedy, longest quantifier first, alternatives in
written order). -/

/-- `$` (no `MULTILINE`): end of input, or just before one final newline. -/
def at_end (cs : List Char) : Bool := cs = [] ∨ cs = ['\n']

/-- `\.?$`. -/
def opt_dot_end (cs : List Char) : Bool :=
  at_end cs ||
    match cs with
    | '.' :: r => at_end r
    | _ => false

/-- A case-insensitive literal, then continue (`re.IGNORECASE` patterns are
written lowercase in the source). -/
def lit_ci {α : Type} : List Char → (List Char → Option α) → List Char → Option α
  | [], k, cs => k cs
  | _ :: _, _, [] => none
  | p :: ps, k, c :: cs => if ci_char c p then lit_ci ps k cs else none

/-- A case-sensitive literal, then continue. -/
def lit_ex {α : Type} : List Char → (List Char → Option α) → List Char → Option α
  | [], k, cs => k cs
  | _ :: _, _, [] => none
  | p :: ps, k, c :: cs => if c = p then lit_ex ps k cs else none

/-- Ordered alternation of case-insensitive literals; the continuation gets
the matched input slice (what `match.group` returns) and the rest. -/
def alt_ci {α : Type} :
    List (List Char) → (List Char → List Char → Option α) → List Char → Option α
  | [], _, _ => none
  | a :: rest, k, cs => lit_ci a (k (cs.take a.length)) cs <|> alt_ci rest k cs

/-- `\s*`, greedy with backtracking. -/
def ws_star {α : Type} (k : List Char → Option α) : List Char → Option α
  | [] => k []
  | c :: cs => if is_space c then ws_star k cs <|> k (c :: cs) else k (c :: cs)

/-- `\s+`, greedy with backtracking. -/
def ws_plus {α : Type} (k : List Char → Option α) : List Char → Option α
  | [] => none
  | c :: cs => if is_space c then ws_star k cs else none

/-- `,?`, greedy. -/
def opt_comma {α : Type} (k : List Char → Option α) : List Char → Option α
  | ',' :: cs => k cs <|> k (',' :: cs)
  | cs => k cs

/-- `\s*,?\s*`, the qualifier/outcome separator of the grammars. -/
def sep {α : Type} (k : List Char → Option α) : List Char → Option α :=
  ws_star (opt_comma (ws_star k))

/-- `.+` (no capture needed), greedy with backtracking. -/
def dot_plus {α : Type} (k : List Char → Option α) : List Char → Option α
  | [] => none
  | c :: cs => if c = '\n' then none else dot_plus k cs <|> k cs

/-- `(?P<g>.+)$`: everything up to the end (allowing one final newline
consumed by `$`), nonempty, newline-free. -/
def dot_plus_end (cs : List Char) : Option (List Char) :=
  let body := match cs.getLast? with
    | some '\n' => cs.dropLast
    | _ => cs
  if body.isEmpty || body.contains '\n' then none else some body

/-- `[A-Za-z0-9]+` with capture, greedy with backtracking (`acc` holds the
consumed run, reversed). -/
def alnum_from {α : Type} (acc : List Char)
    (k : List Char → List Char → Option α) : List Char → Option α
  | [] => k acc.reverse []
  | c :: cs =>
      if is_alnum c then alnum_from (c :: acc) k cs <|> k acc.reverse (c :: cs)
      else k acc.reverse (c :: cs)

/-- `(?P<player>[A-Za-z0-9]+)`: at least one character, then as above. -/
def alnum_cap {α : Type} (k : List Char → List Char → Option α) :
    List Char → Option α
  | [] => none
  | c :: cs => if is_alnum c then alnum_from [c] k cs else none

private def t (s : String) : List Char := s.toList

structure FirstTouchGroups where
  team : List Char
  player : List Char
  quality : List Char
  result : List Char
  deriving Repr, DecidableEq

structure OnBallGroups where
  team : List Char
  player : List Char
  touch_count : List Char
  action : List Char
  tail : List Char
  deriving Repr, DecidableEq

structure PostLossGroups where
  team : List Char
  player : List Char
  behaviour : List Char
  outcome_clause : List Char
  deriving Repr, DecidableEq

/-- `FIRST_TOUCH_RE.match(text)`. -/
def first_touch_re (cs : List Char) : Option FirstTouchGroups :=
  alt_ci [t "blue", t "white"] (fun team =>
    ws_plus (alnum_cap (fun player =>
      ws_plus (lit_ci (t "first touch") (
        ws_plus (alt_ci [t "high", t "medium", t "low"] (fun quality =>
          sep (alt_ci
            [t "controlled", t "rebound free space", t "rebound to opponent"]
            (fun result r =>
              if opt_dot_end r then some ⟨team, player, quality, result⟩
              else none))))))))) cs

/-- `ON_BALL_RE.match(text)`. -/
def on_ball_re (cs : List Char) : Option OnBallGroups :=
  alt_ci [t "blue", t "white"] (fun team =>
    ws_plus (alnum_cap (fun player =>
      ws_plus (alt_ci [t "one", t "two", t "three-plus"] (fun touch_count =>
        lit_ci (t "-touch") (
          ws_plus (alt_ci
            [t "pass", t "forward ball", t "service", t "clearance", t "shot"]
            (fun action =>
              sep (fun r =>
                (dot_plus_end r).map (fun tail =>
                  ⟨team, player, touch_count, action, tail⟩)))))))))) cs

/-- `POST_LOSS_RE.match(text)`. -/
def post_loss_re (cs : List Char) : Option PostLossGroups :=
  lit_ci (t "after losing it") (opt_comma (ws_star (
    alt_ci [t "blue", t "white"] (fun team =>
      ws_plus (alnum_cap (fun player =>
        ws_plus (alt_ci
          [t "immediate press", t "track runner", t "token pressure",
           t "stops and watches", t "gives up"]
          (fun behaviour =>
            sep (fun r =>
              (dot_plus_end r).map (fun outcome_clause =>
                ⟨team, player, behaviour, outcome_clause⟩)))))))))) cs

/-- `COMPLETED_RE.match(clause)` (`^completed(?:\s+to\s+(?P<target>.+))?\.?$`). -/
def completed_re (cs : List Char) : Bool :=
  (lit_ci (t "completed") (fun r =>
    (ws_plus (lit_ci (t "to") (ws_plus (fun r2 =>
      if (dot_plus_end r2).isSome then some () else none))) r) <|>
    (if opt_dot_end r then some () else none)) cs).isSome

/-- `TO_OPPONENT_RE.match(clause)`
(`^(?:to\s+opponent|intercepted(?:\s+by\s+opponent)?)\.?$`). -/
def to_opponent_re (cs : List Char) : Bool :=
  ((lit_ci (t "to") (ws_plus (lit_ci (t "opponent") (fun r =>
      if opt_dot_end r then some () else none))) cs) <|>
   (lit_ci (t "intercepted") (fun r =>
      (ws_plus (lit_ci (t "by") (ws_plus (lit_ci (t "opponent") (fun r2 =>
        if opt_dot_end r2 then some () else none)))) r) <|>
      (if opt_dot_end r then some () else none)) cs)).isSome

/-- `OUT_FOR_RE.match(clause)`, returning the `restart` group slice. -/
def out_for_re (cs : List Char) : Option (List Char) :=
  lit_ci (t "out") (ws_plus (lit_ci (t "for") (ws_plus (
    alt_ci [t "throw", t "goal kick", t "corner"] (fun restart r =>
      if opt_dot_end r then some restart else none))))) cs

/-- `BLOCKED_RE.match(clause)` (`^blocked\.?$`). -/
def blocked_re (cs : List Char) : Bool :=
  (lit_ci (t "blocked") (fun r =>
    if opt_dot_end r then some () else none) cs).isSome

/-- `re.match(r"^to\s+(?P<target>.+)\s+completed\.?$", clause_lower)`
(case-sensitive; its argument is already lowercased). -/
def completion_to_re (cs : List Char) : Bool :=
  (lit_ex (t "to") (ws_plus (dot_plus (ws_plus (lit_ex (t "completed")
    (fun r => if opt_dot_end r then some () else none))))) cs).isSome

/-! ## Value maps and outcome classification -/

/-- `SPOKEN_NUMBER_MAP`. -/
def spoken_number_map : List (String × String) :=
  [("zero", "0"), ("one", "1"), ("two", "2"), ("three", "3"), ("four", "4"),
   ("five", "5"), ("six", "6"), ("seven", "7"), ("eight", "8"), ("nine", "9"),
   ("ten", "10"), ("eleven", "11"), ("twelve", "12"), ("thirteen", "13"),
   ("fourteen", "14"), ("fifteen", "15"), ("sixteen", "16"),
   ("seventeen", "17"), ("eighteen", "18"), ("nineteen", "19"),
   ("twenty", "20")]

/-- `_normalize_player`: spoken number words map to digit strings, anything
else passes through unchanged. -/
def normalize_player (token : List Char) : String :=
  let lookup := String.mk ((strip_ws token).map lower_char)
  match spoken_number_map.find? (fun p => p.1 = lookup) with
  | some p => p.2
  | none => String.mk token

/-- `MARKER_PREFIXES`, the discarded timing-annotation starters. -/
def marker_starts : List String := ["first half", "second half", "mark"]

/-- `_map_touch_count`. -/
def map_touch_count (value : String) : String :=
  if value = "one" then "one_touch"
  else if value = "two" then "two_touch"
  else "three_plus"

/-- `_map_action_type`. -/
def map_action_type (value : String) : String :=
  if value = "pass" then "pass"
  else if value = "forward ball" then "forward_ball"
  else if value = "service" then "service"
  else if value = "clearance" then "clearance"
  else "shot"

/-- `PASS_INTENT_MAP` (insertion order matters for the lookup loops). -/
def pass_intent_map : List (String × String) :=
  [("safe recycle", "safe_recycle"), ("line breaking", "line_breaking"),
   ("switch of play", "switch_of_play"), ("through ball", "through_ball"),
   ("service into box", "service_into_box")]

/-- `_extract_intent_and_outcome`: peel a leading pass-intent phrase off the
tail (comma-delimited when a comma exists), else treat the whole tail as the
outcome clause. -/
def extract_intent_and_outcome (tail : List Char) :
    Option String × List Char :=
  let cleaned := strip_ws tail
  match cleaned.findIdx? (· = ',') with
  | none =>
      match pass_intent_map.find? (fun pm => starts_with pm.1.toList cleaned) with
      | some pm =>
          (some pm.2,
            strip_set (fun c => c = ' ' ∨ c = ',') (cleaned.drop pm.1.length))
      | none => (none, cleaned)
  | some i =>
      let potential := (strip_ws (cleaned.take i)).map lower_char
      match pass_intent_map.find? (fun pm => starts_with pm.1.toList potential) with
      | some pm => (some pm.2, strip_ws (cleaned.drop (i + 1)))
      | none => (none, cleaned)

/-- The three outcome fields produced by `_parse_on_ball_outcome`. -/
structure OutcomeTriple where
  action_outcome_team : String
  action_outcome_detail : String
  next_possession_team : String
  deriving Repr, DecidableEq

/-- `_parse_on_ball_outcome`: ordered classification of the outcome clause,
with the final `loose/blocked/contested` fallback. -/
def parse_on_ball_outcome (clause : List Char) (action_type : String) :
    OutcomeTriple :=
  let cl := strip_ws clause
  let cl_lower := cl.map lower_char
  if completion_to_re cl_lower then
    ⟨"same_team", "completed", "same_team"⟩
  else if completed_re cl then
    ⟨"same_team", "completed", "same_team"⟩
  else if to_opponent_re cl then
    ⟨"opponent", "intercepted", "opponent"⟩
  else
    match out_for_re cl with
    | some restart =>
        let next :=
          if String.mk restart = "goal kick" ∨ String.mk restart = "corner"
          then "opponent" else "same_team"
        let detail :=
          if action_type = "clearance" then "clearance_out" else "overhit"
        ⟨"out_of_play", detail, next⟩
    | none =>
        if blocked_re cl then
          ⟨"loose",
            if action_type = "shot" then "shot_blocked" else "blocked",
            "contested"⟩
        else if has_sub (t "on target") cl_lower then
          ⟨"opponent", "shot_on_target", "opponent"⟩
        else if has_sub (t "off target") cl_lower then
          ⟨"out_of_play", "shot_off_target", "opponent"⟩
        else ⟨"loose", "blocked", "contested"⟩

/-- `_map_post_loss_behaviour`. -/
def map_post_loss_behaviour (value : String) : String :=
  if value = "immediate press" then "immediate_press"
  else if value = "track runner" then "track_runner"
  else if value = "token pressure" then "token_pressure"
  else "no_reaction"

/-- `_map_post_loss_outcome` (leading-phrase classification with `no_effect`
default). -/
def map_post_loss_outcome (value : List Char) : String :=
  if starts_with (t "wins it back herself") value then "won_back_possession_self"
  else if starts_with (t "wins it back for the team") value then
    "won_back_possession_team"
  else if starts_with (t "forces error") value then "forced_error_only"
  else if starts_with (t "no effect") value then "no_effect"
  else if starts_with (t "negative effect") value then "negative_effect"
  else "no_effect"

/-! ## Event builder and fragment handlers -/

/-- Python `str.capitalize()`: first character upper, rest lower. -/
def py_capitalize (s : List Char) : String :=
  match s with
  | [] => ""
  | c :: cs => String.mk (c.toUpper :: cs.map lower_char)

/-- `_build_base_event`: draws the next event id and fills the uniform
schema; family fields stay absent. -/
def build_base_event (st : ParserState) (seg : Segment) (team : String)
    (player_number : String) (event_type : String) (source_phrase : String) :
    ParserState × Event :=
  let (st1, event_id) := st.next_event_id
  (st1,
    { event_id := event_id
      match_id := st.match_id
      period := st.period
      video_time_s := seg.start + st.offset_seconds
      team := team
      player_jersey_number := player_number
      event_type := event_type
      source_phrase := source_phrase })

/-- `_parse_first_touch` (after a successful `FIRST_TOUCH_RE` match). -/
def parse_first_touch (st : ParserState) (seg : Segment) (raw : String)
    (norm : List Char) : Option (ParserState × Event) :=
  (first_touch_re norm).map (fun m =>
    let team := py_capitalize m.team
    let player_number := normalize_player m.player
    let quality := String.mk (m.quality.map lower_char)
    let result_raw := String.mk (m.result.map lower_char)
    let ft : String × String :=
      if result_raw = "controlled" then ("controlled", "same_player")
      else if result_raw = "rebound free space" then
        ("rebound_free_space", "loose")
      else ("rebound_opponent", "opponent")
    let maintained : Bool :=
      decide (ft.2 = "same_player" ∨ ft.2 = "same_team_other_player")
    let (st1, base) := build_base_event st seg team player_number
      "first_touch" raw
    let (st2, possession_id) := st1.start_or_continue_possession team
    let event := { base with
      possession_id := some possession_id
      sequence_id := some possession_id
      first_touch_quality := some quality
      first_touch_result := some ft.1
      possession_after_touch := some ft.2
      maintained_possession_bool := some maintained }
    let st3 :=
      if maintained = false then
        (if ft.2 = "opponent" then
          { st2 with last_loss_event_id := some event.event_id }
         else st2).end_possession
      else st2
    (st3, event))

/-- `_parse_on_ball_action` (after a successful `ON_BALL_RE` match). -/
def parse_on_ball_action (st : ParserState) (seg : Segment) (raw : String)
    (norm : List Char) : Option (ParserState × Event) :=
  (on_ball_re norm).map (fun m =>
    let team := py_capitalize m.team
    let player_number := normalize_player m.player
    let touch_count := map_touch_count (String.mk (m.touch_count.map lower_char))
    let action_type := map_action_type (String.mk (m.action.map lower_char))
    let tail := strip_ws m.tail
    let io := extract_intent_and_outcome tail
    let pass_intent :=
      if action_type = "pass" ∨ action_type = "forward_ball" ∨
          action_type = "service" then io.1
      else none
    let outcome := parse_on_ball_outcome io.2 action_type
    let (st1, base) := build_base_event st seg team player_number
      "on_ball_action" raw
    let withPossession : Event :=
      if st1.possession_open ∧ st1.possession_owner_team = some team then
        { base with
          possession_id := some (toString st1.current_possession_id)
          sequence_id := some (toString st1.current_possession_id) }
      else base
    let event := { withPossession with
      touch_count_before_action := some touch_count
      on_ball_action_type := some action_type
      carry_flag := some false
      pass_intent := some pass_intent
      action_outcome_team := some outcome.action_outcome_team
      action_outcome_detail := some outcome.action_outcome_detail
      next_possession_team := some outcome.next_possession_team }
    let st2 :=
      if outcome.action_outcome_team = "opponent" ∨
          outcome.action_outcome_team = "out_of_play" then
        { st1 with last_loss_event_id := some event.event_id }.end_possession
      else if outcome.action_outcome_team = "loose" then st1.end_possession
      else st1
    (st2, event))

/-- `_parse_post_loss_reaction` (after a successful `POST_LOSS_RE` match). -/
def parse_post_loss_reaction (st : ParserState) (seg : Segment) (raw : String)
    (norm : List Char) : Option (ParserState × Event) :=
  (post_loss_re norm).map (fun m =>
    let team := py_capitalize m.team
    let player_number := normalize_player m.player
    let behaviour := map_post_loss_behaviour (String.mk (m.behaviour.map lower_char))
    let outcome_text := (strip_ws m.outcome_clause).map lower_char
    let outcome := map_post_loss_outcome outcome_text
    let intensity :=
      if behaviour = "immediate_press" ∨ behaviour = "track_runner" then "high"
      else if behaviour = "token_pressure" then "medium"
      else "low"
    let (st1, base) := build_base_event st seg team player_number
      "post_loss_reaction" raw
    let event := { base with
      trigger_event_id := some st.last_loss_event_id
      post_loss_behaviour := some behaviour
      post_loss_outcome := some outcome
      post_loss_effort_intensity := some intensity }
    (st1, event))

/-! ## The parse loop -/

/-- The fragment body of the segment loop in `parse_transcript_segments`:
skip blanks and markers, then try the three families in priority order.
A fragment that emits nothing leaves the state untouched (the handlers
mutate state only after their pattern matched). -/
def process_fragment (st : ParserState) (seg : Segment) (raw : String) :
    ParserState × Option Event :=
  if raw.toList.isEmpty then (st, none)
  else
    let norm := normalize_phrase raw
    if norm.toList.isEmpty then (st, none)
    else if starts_with_any marker_starts norm.toList then (st, none)
    else
      match parse_first_touch st seg raw norm.toList with
      | some (st', e) => (st', some e)
      | none =>
          match parse_on_ball_action st seg raw norm.toList with
          | some (st', e) => (st', some e)
          | none =>
              match parse_post_loss_reaction st seg raw norm.toList with
              | some (st', e) => (st', some e)
              | none => (st, none)

/-- Run the fragment body over a list of (segment, fragment) pairs,
collecting emitted events in order. -/
def run_frag_list (st : ParserState) :
    List (Segment × String) → ParserState × List Event
  | [] => (st, [])
  | p :: ps =>
      let (st1, oe) := process_fragment st p.1 p.2
      let (st2, evs) := run_frag_list st1 ps
      (st2, oe.toList ++ evs)

/-- The per-segment body: split the text and fold the fragment loop. -/
def process_segment (st : ParserState) (seg : Segment) :
    ParserState × List Event :=
  run_frag_list st ((split_segment_text seg.text).map (fun raw => (seg, raw)))

/-- The segment loop; a raising `_to_segment` aborts the whole call. -/
def run_segments (st : ParserState) :
    List RawSegment → Except Unit (ParserState × List Event)
  | [] => .ok (st, [])
  | r :: rs => do
      let seg ← to_segment r
      let (st1, evs1) := process_segment st seg
      let (st2, evs2) ← run_segments st1 rs
      .ok (st2, evs1 ++ evs2)

/-- `parse_transcript_segments`. -/
def parse_transcript_segments (segments : List RawSegment) (match_id : String)
    (period : String) (offset_seconds : ℚ := 0) :
    Except Unit (List Event) :=
  (run_segments
      { match_id := match_id, period := period,
        offset_seconds := offset_seconds }
      segments).map (·.2)

/-! ## Claim-support definitions -/

/-- The initial state constructed by `parse_transcript_segments`. -/
def init_state (match_id period : String) (offset_seconds : ℚ) : ParserState :=
  { match_id := match_id, period := period, offset_seconds := offset_seconds }

/-- A qualifying possession-loss event: the exact condition under which the
source stores `last_loss_event_id` — a first touch rebounding to the
opponent, or an on-ball action whose outcome team is `opponent` or
`out_of_play` (§4.3 of the spec: an outcome that "sends the ball to the
opponent"). -/
def is_loss_event (e : Event) : Bool :=
  (e.event_type == "first_touch" &&
    e.possession_after_touch == some "opponent") ||
  (e.event_type == "on_ball_action" &&
    (e.action_outcome_team == some "opponent" ||
     e.action_outcome_team == some "out_of_play"))

/-- The id of the most recent qualifying loss event in a list, if any. -/
def last_loss_ref (evs : List Event) : Option String :=
  ((evs.filter is_loss_event).getLast?).map (·.event_id)

/-- Adjacent-pair possession continuity: if an event and its successor are
first touches by the same team and the first one maintained possession, they
carry the same possession id. -/
def same_chain_rel (a b : Event) : Prop :=
  a.event_type = "first_touch" → b.event_type = "first_touch" →
  a.team = b.team → a.maintained_possession_bool = some true →
  a.possession_id = b.possession_id

/-! ## Handler step lemmas -/

theorem parse_first_touch_spec (st : ParserState) (seg : Segment)
    (raw : String) (norm : List Char) (st' : ParserState) (e : Event)
    (h : parse_first_touch st seg raw norm = some (st', e)) :
    e.event_type = "first_touch" ∧
    e.event_id = st.match_id ++ "-" ++ toString (st.event_counter + 1) ∧
    st'.match_id = st.match_id ∧ st'.period = st.period ∧
    st'.offset_seconds = st.offset_seconds ∧
    st'.event_counter = st.event_counter + 1 ∧
    e.sequence_id = e.possession_id ∧
    e.carry_flag = none ∧
    e.trigger_event_id = none ∧
    e.possession_id = some (toString st'.current_possession_id) ∧
    (st.possession_open = true ∧ st.possession_owner_team = some e.team →
      st'.current_possession_id = st.current_possession_id) ∧
    (¬(st.possession_open = true ∧ st.possession_owner_team = some e.team) →
      st'.current_possession_id = st.current_possession_id + 1) ∧
    (e.maintained_possession_bool = some true ∨
      e.maintained_possession_bool = some false) ∧
    (e.maintained_possession_bool = some true ↔
      e.possession_after_touch = some "same_player") ∧
    (e.maintained_possession_bool = some true →
      st'.possession_open = true ∧ st'.possession_owner_team = some e.team) ∧
    (e.maintained_possession_bool = some false →
      st'.possession_open = false) ∧
    (e.possession_after_touch = some "opponent" →
      st'.last_loss_event_id = some e.event_id) ∧
    (e.possession_after_touch ≠ some "opponent" →
      st'.last_loss_event_id = st.last_loss_event_id) := by
  rcases hm : first_touch_re norm with _ | m
  · rw [parse_first_touch, hm] at h
    exact absurd h (by simp)
  · rw [parse_first_touch, hm] at h
    simp only [Option.map_some', Option.some.injEq] at h
    rw [build_base_event, ParserState.next_event_id,
      ParserState.start_or_continue_possession,
      ParserState.end_possession] at h
    by_cases hr1 : String.mk (m.result.map lower_char) = "controlled"
    · simp only [hr1, if_pos rfl] at h
      by_cases hp : st.possession_open = false ∨
          st.possession_owner_team ≠ some (py_capitalize m.team)
      · rw [if_pos hp] at h
        obtain ⟨hst, he⟩ := Prod.mk.injEq .. ▸ h
        subst hst he
        refine ⟨rfl, rfl, rfl, rfl, rfl, rfl, rfl, rfl, rfl, rfl, ?_, ?_,
          by simp, by simp, ?_, by simp, by simp, fun _ => rfl⟩
        · intro hc
          rcases hp with hp | hp
          · rw [hc.1] at hp; cases hp
          · exact absurd hc.2 hp
        · intro _; rfl
        · intro _; exact ⟨rfl, rfl⟩
      · rw [if_neg hp] at h
        push_neg at hp
        obtain ⟨hst, he⟩ := Prod.mk.injEq .. ▸ h
        subst hst he
        refine ⟨rfl, rfl, rfl, rfl, rfl, rfl, rfl, rfl, rfl, rfl,
          fun _ => rfl, ?_, by simp, by simp, ?_, by simp, by simp,
          fun _ => rfl⟩
        · intro hc
          rcases Bool.eq_false_or_eq_true st.possession_open with hb | hb
          · exact absurd ⟨hb, hp.2⟩ hc
          · exact absurd (hp.1 hb) (by simp)
        · intro _; exact ⟨rfl, hp.2⟩
    · rw [if_neg hr1] at h
      by_cases hr2 : String.mk (m.result.map lower_char) = "rebound free space"
      · simp only [hr2, if_pos rfl] at h
        by_cases hp : st.possession_open = false ∨
            st.possession_owner_team ≠ some (py_capitalize m.team)
        · rw [if_pos hp] at h
          obtain ⟨hst, he⟩ := Prod.mk.injEq .. ▸ h
          subst hst he
          refine ⟨rfl, rfl, rfl, rfl, rfl, rfl, rfl, rfl, rfl, rfl, ?_, ?_,
            by simp, by simp, by simp, fun _ => rfl, by simp, fun _ => rfl⟩
          · intro hc
            rcases hp with hp | hp
            · rw [hc.1] at hp; cases hp
            · exact absurd hc.2 hp
          · intro _; rfl
        · rw [if_neg hp] at h
          push_neg at hp
          obtain ⟨hst, he⟩ := Prod.mk.injEq .. ▸ h
          subst hst he
          refine ⟨rfl, rfl, rfl, rfl, rfl, rfl, rfl, rfl, rfl, rfl,
            fun _ => rfl, ?_, by simp, by simp, by simp, fun _ => rfl,
            by simp, fun _ => rfl⟩
          · intro hc
            rcases Bool.eq_false_or_eq_true st.possession_open with hb | hb
            · exact absurd ⟨hb, hp.2⟩ hc
            · exact absurd (hp.1 hb) (by simp)
      · rw [if_neg hr2] at h
        by_cases hp : st.possession_open = false ∨
            st.possession_owner_team ≠ some (py_capitalize m.team)
        · rw [if_pos hp] at h
          obtain ⟨hst, he⟩ := Prod.mk.injEq .. ▸ h
          subst hst he
          refine ⟨rfl, rfl, rfl, rfl, rfl, rfl, rfl, rfl, rfl, rfl, ?_, ?_,
            by simp, by simp, by simp, fun _ => rfl, fun _ => rfl, by simp⟩
          · intro hc
            rcases hp with hp | hp
            · rw [hc.1] at hp; cases hp
            · exact absurd hc.2 hp
          · intro _; rfl
        · rw [if_neg hp] at h
          push_neg at hp
          obtain ⟨hst, he⟩ := Prod.mk.injEq .. ▸ h
          subst hst he
          refine ⟨rfl, rfl, rfl, rfl, rfl, rfl, rfl, rfl, rfl, rfl,
            fun _ => rfl, ?_, by simp, by simp, by simp, fun _ => rfl,
            fun _ => rfl, by simp⟩
          · intro hc
            rcases Bool.eq_false_or_eq_true st.possession_open with hb | hb
            · exact absurd ⟨hb, hp.2⟩ hc
            · exact absurd (hp.1 hb) (by simp)


theorem parse_on_ball_action_spec (st : ParserState) (seg : Segment)
    (raw : String) (norm : List Char) (st' : ParserState) (e : Event)
    (h : parse_on_ball_action st seg raw norm = some (st', e)) :
    e.event_type = "on_ball_action" ∧
    e.event_id = st.match_id ++ "-" ++ toString (st.event_counter + 1) ∧
    st'.match_id = st.match_id ∧ st'.period = st.period ∧
    st'.offset_seconds = st.offset_seconds ∧
    st'.event_counter = st.event_counter + 1 ∧
    e.sequence_id = e.possession_id ∧
    e.carry_flag = some false ∧
    e.trigger_event_id = none ∧
    st'.current_possession_id = st.current_possession_id ∧
    (st.possession_open = true ∧ st.possession_owner_team = some e.team →
      e.possession_id = some (toString st.current_possession_id)) ∧
    (¬(st.possession_open = true ∧ st.possession_owner_team = some e.team) →
      e.possession_id = none) ∧
    (st'.possession_open = true → st.possession_open = true) ∧
    (e.action_outcome_team = some "opponent" ∨
        e.action_outcome_team = some "out_of_play" →
      st'.last_loss_event_id = some e.event_id) ∧
    (¬(e.action_outcome_team = some "opponent" ∨
        e.action_outcome_team = some "out_of_play") →
      st'.last_loss_event_id = st.last_loss_event_id) := by
  rcases hm : on_ball_re norm with _ | m
  · rw [parse_on_ball_action, hm] at h
    exact absurd h (by simp)
  · rw [parse_on_ball_action, hm] at h
    simp only [Option.map_some', Option.some.injEq] at h
    rw [build_base_event, ParserState.next_event_id,
      ParserState.end_possession] at h
    set oc := parse_on_ball_outcome
      (extract_intent_and_outcome (strip_ws m.tail)).2
      (map_action_type (String.mk (m.action.map lower_char))) with hoc
    by_cases hq : st.possession_open = true ∧
        st.possession_owner_team = some (py_capitalize m.team)
    · rw [if_pos hq] at h
      by_cases ho1 : oc.action_outcome_team = "opponent" ∨
          oc.action_outcome_team = "out_of_play"
      · rw [if_pos ho1] at h
        obtain ⟨hst, he⟩ := Prod.mk.injEq .. ▸ h
        subst hst he
        refine ⟨rfl, rfl, rfl, rfl, rfl, rfl, rfl, rfl, rfl, rfl,
          fun _ => rfl, fun hc => absurd hq hc, by simp, fun _ => rfl, ?_⟩
        · intro hc
          exact absurd (by simpa using ho1) hc
      · rw [if_neg ho1] at h
        by_cases ho2 : oc.action_outcome_team = "loose"
        · rw [if_pos ho2] at h
          obtain ⟨hst, he⟩ := Prod.mk.injEq .. ▸ h
          subst hst he
          refine ⟨rfl, rfl, rfl, rfl, rfl, rfl, rfl, rfl, rfl, rfl,
            fun _ => rfl, fun hc => absurd hq hc,
            by simp [ParserState.end_possession], ?_,
            fun _ => rfl⟩
          · intro hc
            exact absurd (by simpa using hc) ho1
        · rw [if_neg ho2] at h
          obtain ⟨hst, he⟩ := Prod.mk.injEq .. ▸ h
          subst hst he
          refine ⟨rfl, rfl, rfl, rfl, rfl, rfl, rfl, rfl, rfl, rfl,
            fun _ => rfl, fun hc => absurd hq hc, fun hb => hb, ?_,
            fun _ => rfl⟩
          · intro hc
            exact absurd (by simpa using hc) ho1
    · rw [if_neg hq] at h
      by_cases ho1 : oc.action_outcome_team = "opponent" ∨
          oc.action_outcome_team = "out_of_play"
      · rw [if_pos ho1] at h
        obtain ⟨hst, he⟩ := Prod.mk.injEq .. ▸ h
        subst hst he
        refine ⟨rfl, rfl, rfl, rfl, rfl, rfl, rfl, rfl, rfl, rfl,
          fun hc => absurd hc hq, fun _ => rfl, by simp, fun _ => rfl, ?_⟩
        · intro hc
          exact absurd (by simpa using ho1) hc
      · rw [if_neg ho1] at h
        by_cases ho2 : oc.action_outcome_team = "loose"
        · rw [if_pos ho2] at h
          obtain ⟨hst, he⟩ := Prod.mk.injEq .. ▸ h
          subst hst he
          refine ⟨rfl, rfl, rfl, rfl, rfl, rfl, rfl, rfl, rfl, rfl,
            fun hc => absurd hc hq, fun _ => rfl,
            by simp [ParserState.end_possession], ?_,
            fun _ => rfl⟩
          · intro hc
            exact absurd (by simpa using hc) ho1
        · rw [if_neg ho2] at h
          obtain ⟨hst, he⟩ := Prod.mk.injEq .. ▸ h
          subst hst he
          refine ⟨rfl, rfl, rfl, rfl, rfl, rfl, rfl, rfl, rfl, rfl,
            fun hc => absurd hc hq, fun _ => rfl, fun hb => hb, ?_,
            fun _ => rfl⟩
          · intro hc
            exact absurd (by simpa using hc) ho1

theorem parse_post_loss_reaction_spec (st : ParserState) (seg : Segment)
    (raw : String) (norm : List Char) (st' : ParserState) (e : Event)
    (h : parse_post_loss_reaction st seg raw norm = some (st', e)) :
    e.event_type = "post_loss_reaction" ∧
    e.event_id = st.match_id ++ "-" ++ toString (st.event_counter + 1) ∧
    st'.match_id = st.match_id ∧ st'.period = st.period ∧
    st'.offset_seconds = st.offset_seconds ∧
    st'.event_counter = st.event_counter + 1 ∧
    e.sequence_id = e.possession_id ∧
    e.possession_id = none ∧
    e.carry_flag = none ∧
    e.trigger_event_id = some st.last_loss_event_id ∧
    st'.current_possession_id = st.current_possession_id ∧
    st'.possession_open = st.possession_open ∧
    st'.possession_owner_team = st.possession_owner_team ∧
    st'.last_loss_event_id = st.last_loss_event_id := by
  rcases hm : post_loss_re norm with _ | m
  · rw [parse_post_loss_reaction, hm] at h
    exact absurd h (by simp)
  · rw [parse_post_loss_reaction, hm] at h
    simp only [Option.map_some', Option.some.injEq] at h
    rw [build_base_event, ParserState.next_event_id] at h
    obtain ⟨hst, he⟩ := Prod.mk.injEq .. ▸ h
    subst hst he
    exact ⟨rfl, rfl, rfl, rfl, rfl, rfl, rfl, rfl, rfl, rfl, rfl, rfl,
      rfl, rfl⟩

/-! ## The run invariant -/

theorem process_fragment_cases (st : ParserState) (seg : Segment)
    (raw : String) (st' : ParserState) (oe : Option Event)
    (h : process_fragment st seg raw = (st', oe)) :
    (oe = none ∧ st' = st) ∨
    ∃ e, oe = some e ∧
      (parse_first_touch st seg raw (normalize_phrase raw).toList
          = some (st', e) ∨
       parse_on_ball_action st seg raw (normalize_phrase raw).toList
          = some (st', e) ∨
       parse_post_loss_reaction st seg raw (normalize_phrase raw).toList
          = some (st', e)) := by
  simp only [process_fragment] at h
  split_ifs at h with h1 h2 h3
  · simp only [Prod.mk.injEq] at h
    exact Or.inl ⟨h.2.symm, h.1.symm⟩
  · simp only [Prod.mk.injEq] at h
    exact Or.inl ⟨h.2.symm, h.1.symm⟩
  · simp only [Prod.mk.injEq] at h
    exact Or.inl ⟨h.2.symm, h.1.symm⟩
  · rcases hft : parse_first_touch st seg raw (normalize_phrase raw).toList
        with _ | ⟨st1, e1⟩
    · rcases hob : parse_on_ball_action st seg raw
          (normalize_phrase raw).toList with _ | ⟨st2, e2⟩
      · rcases hpl : parse_post_loss_reaction st seg raw
            (normalize_phrase raw).toList with _ | ⟨st3, e3⟩
        · simp only [hft, hob, hpl, Prod.mk.injEq] at h
          exact Or.inl ⟨h.2.symm, h.1.symm⟩
        · simp only [hft, hob, hpl, Prod.mk.injEq] at h
          obtain ⟨hst, he⟩ := h
          subst hst he
          exact Or.inr (Exists.intro e3 (And.intro rfl (Or.inr (Or.inr rfl))))
      · simp only [hft, hob, Prod.mk.injEq] at h
        obtain ⟨hst, he⟩ := h
        subst hst he
        exact Or.inr (Exists.intro e2 (And.intro rfl (Or.inr (Or.inl rfl))))
    · simp only [hft, Prod.mk.injEq] at h
      obtain ⟨hst, he⟩ := h
      subst hst he
      exact Or.inr (Exists.intro e1 (And.intro rfl (Or.inl rfl)))

/-- Everything maintained along a run: id bookkeeping, loss linkage,
possession-id bounds, per-family field shapes, and adjacent possession
continuity. -/
structure Inv (mid per : String) (off : ℚ) (st : ParserState)
    (evs : List Event) : Prop where
  mid_eq : st.match_id = mid
  per_eq : st.period = per
  off_eq : st.offset_seconds = off
  counter_eq : st.event_counter = evs.length
  ids : ∀ i (h : i < evs.length),
    (evs.get ⟨i, h⟩).event_id = mid ++ "-" ++ toString (i + 1)
  loss_ref : st.last_loss_event_id = last_loss_ref evs
  triggers : ∀ i (h : i < evs.length),
    (evs.get ⟨i, h⟩).event_type = "post_loss_reaction" →
    (evs.get ⟨i, h⟩).trigger_event_id = some (last_loss_ref (evs.take i))
  pid_bound : ∀ e ∈ evs, ∀ s, e.possession_id = some s →
    ∃ k, s = toString k ∧ 1 ≤ k ∧ k ≤ st.current_possession_id
  seq_eq : ∀ e ∈ evs, e.sequence_id = e.possession_id
  carry : ∀ e ∈ evs,
    (e.event_type = "on_ball_action" → e.carry_flag = some false) ∧
    (e.event_type ≠ "on_ball_action" → e.carry_flag = none)
  plr_pid : ∀ e ∈ evs,
    e.event_type = "post_loss_reaction" → e.possession_id = none
  open_pos : st.possession_open = true → 1 ≤ st.current_possession_id
  last_ft : ∀ e, evs.getLast? = some e → e.event_type = "first_touch" →
    e.maintained_possession_bool = some true →
    st.possession_open = true ∧ st.possession_owner_team = some e.team ∧
    e.possession_id = some (toString st.current_possession_id)
  chain : List.Chain' same_chain_rel evs

theorem inv_init (mid per : String) (off : ℚ) :
    Inv mid per off (init_state mid per off) [] := by
  refine ⟨rfl, rfl, rfl, rfl, ?_, rfl, ?_, ?_, ?_, ?_, ?_, ?_, ?_, ?_⟩
  · intro i h; cases h
  · intro i h; cases h
  · intro e he; cases he
  · intro e he; cases he
  · intro e he; cases he
  · intro e he; cases he
  · intro h; cases h
  · intro e he; cases he
  · exact List.chain'_nil

theorem last_loss_ref_concat (evs : List Event) (e : Event) :
    last_loss_ref (evs ++ [e]) =
      if is_loss_event e then some e.event_id else last_loss_ref evs := by
  unfold last_loss_ref
  rw [List.filter_append]
  by_cases hf : is_loss_event e
  · simp [hf]
  · simp [hf]

theorem inv_append {mid per : String} {off : ℚ} {st : ParserState}
    {evs : List Event} (hI : Inv mid per off st evs)
    (st' : ParserState) (e : Event)
    (h_mid : st'.match_id = st.match_id) (h_per : st'.period = st.period)
    (h_off : st'.offset_seconds = st.offset_seconds)
    (h_cnt : st'.event_counter = st.event_counter + 1)
    (h_id : e.event_id = st.match_id ++ "-" ++ toString (st.event_counter + 1))
    (h_seq : e.sequence_id = e.possession_id)
    (h_loss : st'.last_loss_event_id =
      if is_loss_event e then some e.event_id else st.last_loss_event_id)
    (h_trig : e.event_type = "post_loss_reaction" →
      e.trigger_event_id = some st.last_loss_event_id)
    (h_pid : ∀ s, e.possession_id = some s →
      ∃ k, s = toString k ∧ 1 ≤ k ∧ k ≤ st'.current_possession_id)
    (h_mono : st.current_possession_id ≤ st'.current_possession_id)
    (h_carry : (e.event_type = "on_ball_action" → e.carry_flag = some false) ∧
      (e.event_type ≠ "on_ball_action" → e.carry_flag = none))
    (h_plr : e.event_type = "post_loss_reaction" → e.possession_id = none)
    (h_open : st'.possession_open = true → 1 ≤ st'.current_possession_id)
    (h_lft : e.event_type = "first_touch" →
      e.maintained_possession_bool = some true →
      st'.possession_open = true ∧ st'.possession_owner_team = some e.team ∧
      e.possession_id = some (toString st'.current_possession_id))
    (h_rel : ∀ a, evs.getLast? = some a → same_chain_rel a e) :
    Inv mid per off st' (evs ++ [e]) := by
  refine ⟨h_mid.trans hI.mid_eq, h_per.trans hI.per_eq,
    h_off.trans hI.off_eq, ?_, ?_, ?_, ?_, ?_, ?_, ?_, ?_, h_open, ?_, ?_⟩
  · rw [h_cnt, hI.counter_eq]; simp
  · intro i h
    rcases Nat.lt_or_ge i evs.length with hi | hi
    · have : (evs ++ [e]).get ⟨i, h⟩ = evs.get ⟨i, hi⟩ := by
        simp [List.getElem_append_left hi]
      rw [this]; exact hI.ids i hi
    · have hie : i = evs.length := by
        have := h; simp at this; omega
      subst hie
      have : (evs ++ [e]).get ⟨evs.length, h⟩ = e := by simp
      rw [this, h_id, hI.mid_eq, hI.counter_eq]
  · rw [h_loss, last_loss_ref_concat, hI.loss_ref]
  · intro i h hT
    rcases Nat.lt_or_ge i evs.length with hi | hi
    · have hg : (evs ++ [e]).get ⟨i, h⟩ = evs.get ⟨i, hi⟩ := by
        simp [List.getElem_append_left hi]
      rw [hg] at hT ⊢
      rw [List.take_append_of_le_length (Nat.le_of_lt hi)]
      exact hI.triggers i hi hT
    · have hie : i = evs.length := by
        have := h; simp at this; omega
      subst hie
      have hg : (evs ++ [e]).get ⟨evs.length, h⟩ = e := by simp
      rw [hg] at hT ⊢
      rw [List.take_append_of_le_length (Nat.le_refl _), List.take_length,
        h_trig hT, hI.loss_ref]
  · intro e' he' s hs
    rcases List.mem_append.mp he' with hmem | hmem
    · obtain ⟨k, hk1, hk2, hk3⟩ := hI.pid_bound e' hmem s hs
      exact ⟨k, hk1, hk2, hk3.trans h_mono⟩
    · rcases List.mem_singleton.mp hmem with rfl
      exact h_pid s hs
  · intro e' he'
    rcases List.mem_append.mp he' with hmem | hmem
    · exact hI.seq_eq e' hmem
    · rcases List.mem_singleton.mp hmem with rfl
      exact h_seq
  · intro e' he'
    rcases List.mem_append.mp he' with hmem | hmem
    · exact hI.carry e' hmem
    · rcases List.mem_singleton.mp hmem with rfl
      exact h_carry
  · intro e' he'
    rcases List.mem_append.mp he' with hmem | hmem
    · exact hI.plr_pid e' hmem
    · rcases List.mem_singleton.mp hmem with rfl
      exact h_plr
  · intro a ha
    rw [List.getLast?_concat] at ha
    rcases Option.some.injEq .. ▸ ha with rfl
    exact h_lft
  · rw [List.chain'_append]
    refine ⟨hI.chain, List.chain'_singleton e, ?_⟩
    intro x hx y hy
    simp only [List.head?_cons, Option.mem_def, Option.some.injEq] at hy
    subst hy
    exact h_rel x hx

theorem inv_step {mid per : String} {off : ℚ} {st : ParserState}
    {evs : List Event} (hI : Inv mid per off st evs) (seg : Segment)
    (raw : String) {st' : ParserState} {oe : Option Event}
    (h : process_fragment st seg raw = (st', oe)) :
    Inv mid per off st' (evs ++ oe.toList) := by
  rcases process_fragment_cases st seg raw st' oe h with ⟨rfl, rfl⟩ |
    ⟨e, rfl, hcase⟩
  · simpa using hI
  · simp only [Option.toList_some]
    rcases hcase with hft | hob | hpl
    · obtain ⟨F1, F2, F3, F4, F5, F6, F7, F8, F9, F10, F11, F12, F13, F14,
        F15, F16, F17, F18⟩ := parse_first_touch_spec _ _ _ _ _ _ hft
      have hge : 1 ≤ st'.current_possession_id := by
        by_cases hq : st.possession_open = true ∧
            st.possession_owner_team = some e.team
        · rw [F11 hq]; exact hI.open_pos hq.1
        · rw [F12 hq]; exact Nat.succ_le_succ (Nat.zero_le _)
      refine inv_append hI st' e F3 F4 F5 F6 F2 F7 ?_ ?_ ?_ ?_ ?_ ?_ ?_ ?_ ?_
      · by_cases hpa : e.possession_after_touch = some "opponent"
        · rw [F17 hpa, if_pos]
          simp [is_loss_event, F1, hpa]
        · rw [F18 hpa, if_neg]
          simp [is_loss_event, F1, hpa]
      · intro hT; rw [F1] at hT; exact absurd hT (by decide)
      · intro s hs
        rw [F10] at hs
        obtain rfl := Option.some.injEq .. ▸ hs
        exact ⟨st'.current_possession_id, rfl, hge, Nat.le_refl _⟩
      · by_cases hq : st.possession_open = true ∧
            st.possession_owner_team = some e.team
        · exact Nat.le_of_eq (F11 hq).symm
        · rw [F12 hq]; exact Nat.le_succ _
      · refine ⟨?_, fun _ => F8⟩
        intro hT; rw [F1] at hT; exact absurd hT (by decide)
      · intro hT; rw [F1] at hT; exact absurd hT (by decide)
      · intro _; exact hge
      · intro _ hM
        obtain ⟨ho, hw⟩ := F15 hM
        exact ⟨ho, hw, F10⟩
      · intro a ha t1 t2 hteam hM
        obtain ⟨hopen, howner, hapid⟩ := hI.last_ft a ha t1 hM
        have hq : st.possession_open = true ∧
            st.possession_owner_team = some e.team := by
          exact ⟨hopen, hteam ▸ howner⟩
        rw [hapid, F10, F11 hq]
    · obtain ⟨O1, O2, O3, O4, O5, O6, O7, O8, O9, O10, O11, O12, O13, O14,
        O15⟩ := parse_on_ball_action_spec _ _ _ _ _ _ hob
      refine inv_append hI st' e O3 O4 O5 O6 O2 O7 ?_ ?_ ?_ ?_ ?_ ?_ ?_ ?_ ?_
      · by_cases hoc : e.action_outcome_team = some "opponent" ∨
            e.action_outcome_team = some "out_of_play"
        · rw [O14 hoc, if_pos]
          rcases hoc with hc | hc <;> simp [is_loss_event, O1, hc]
        · rw [O15 hoc, if_neg]
          push_neg at hoc
          simp [is_loss_event, O1, hoc.1, hoc.2]
      · intro hT; rw [O1] at hT; exact absurd hT (by decide)
      · intro s hs
        by_cases hq : st.possession_open = true ∧
            st.possession_owner_team = some e.team
        · rw [O11 hq] at hs
          obtain rfl := Option.some.injEq .. ▸ hs
          exact ⟨st.current_possession_id, rfl, hI.open_pos hq.1,
            Nat.le_of_eq O10.symm⟩
        · rw [O12 hq] at hs; cases hs
      · exact Nat.le_of_eq O10.symm
      · exact ⟨fun _ => O8, fun hT => absurd O1 hT⟩
      · intro hT; rw [O1] at hT; exact absurd hT (by decide)
      · intro ho; rw [O10]; exact hI.open_pos (O13 ho)
      · intro hT; rw [O1] at hT; exact absurd hT (by decide)
      · intro a _ _ t2 _ _
        rw [O1] at t2; exact absurd t2 (by decide)
    · obtain ⟨P1, P2, P3, P4, P5, P6, P7, P8, P9, P10, P11, P12, P13,
        P14⟩ := parse_post_loss_reaction_spec _ _ _ _ _ _ hpl
      refine inv_append hI st' e P3 P4 P5 P6 P2 P7 ?_ ?_ ?_ ?_ ?_ ?_ ?_ ?_ ?_
      · rw [P14, if_neg]
        simp [is_loss_event, P1]
      · intro _; exact P10
      · intro s hs; rw [P8] at hs; cases hs
      · exact Nat.le_of_eq P11.symm
      · refine ⟨?_, fun _ => P9⟩
        intro hT; rw [P1] at hT; exact absurd hT (by decide)
      · intro _; exact P8
      · intro ho; rw [P11]; rw [P12] at ho; exact hI.open_pos ho
      · intro hT; rw [P1] at hT; exact absurd hT (by decide)
      · intro a _ _ t2 _ _
        rw [P1] at t2; exact absurd t2 (by decide)

theorem inv_run (mid per : String) (off : ℚ) (ps : List (Segment × String)) :
    ∀ (st : ParserState) (evs : List Event), Inv mid per off st evs →
    Inv mid per off (run_frag_list st ps).1
      (evs ++ (run_frag_list st ps).2) := by
  induction ps with
  | nil =>
      intro st evs hI
      simpa [run_frag_list] using hI
  | cons p ps ih =>
      intro st evs hI
      rcases hpf : process_fragment st p.1 p.2 with ⟨st1, oe⟩
      have hI1 := inv_step hI p.1 p.2 hpf
      have hrec := ih st1 (evs ++ oe.toList) hI1
      rcases hr : run_frag_list st1 ps with ⟨st2, evs2⟩
      rw [hr] at hrec
      simp only [run_frag_list, hpf, hr]
      simpa [List.append_assoc] using hrec

theorem except_bind_ok {α β : Type} (a : α) (f : α → Except Unit β) :
    ((Except.ok a : Except Unit α) >>= f) = f a := rfl

theorem except_bind_error {α β : Type} (f : α → Except Unit β) :
    ((Except.error () : Except Unit α) >>= f) = Except.error () := rfl

theorem inv_segments (mid per : String) (off : ℚ) (rs : List RawSegment) :
    ∀ (st : ParserState) (evs : List Event), Inv mid per off st evs →
    ∀ (st' : ParserState) (evs2 : List Event),
    run_segments st rs = .ok (st', evs2) →
    Inv mid per off st' (evs ++ evs2) := by
  induction rs with
  | nil =>
      intro st evs hI st' evs2 h
      simp only [run_segments, Except.ok.injEq, Prod.mk.injEq] at h
      obtain ⟨rfl, rfl⟩ := h
      simpa using hI
  | cons r rs ih =>
      intro st evs hI st' evs2 h
      simp only [run_segments] at h
      rcases hts : to_segment r with er | seg
      · rw [hts] at h
        cases er
        rw [except_bind_error] at h
        cases h
      · rw [hts] at h
        rw [except_bind_ok] at h
        rcases hps : process_segment st seg with ⟨st1, evs1⟩
        rw [hps] at h
        rcases hrs : run_segments st1 rs with er2 | ⟨st2, evs2'⟩
        · cases er2
          rw [hrs, except_bind_error] at h
          cases h
        · rw [hrs, except_bind_ok] at h
          simp only [Except.ok.injEq, Prod.mk.injEq] at h
          obtain ⟨rfl, rfl⟩ := h
          have hI1 : Inv mid per off st1 (evs ++ evs1) := by
            have := inv_run mid per off
              ((split_segment_text seg.text).map (fun raw => (seg, raw)))
              st evs hI
            rw [show run_frag_list st
                ((split_segment_text seg.text).map (fun raw => (seg, raw)))
                = (st1, evs1) from hps] at this
            exact this
          have := ih st1 (evs ++ evs1) hI1 st2 evs2' hrs
          simpa [List.append_assoc] using this

theorem parse_inv (segs : List RawSegment) (mid per : String) (off : ℚ)
    (evs : List Event)
    (h : parse_transcript_segments segs mid per off = .ok evs) :
    ∃ st', run_segments (init_state mid per off) segs = .ok (st', evs) ∧
      Inv mid per off st' evs := by
  unfold parse_transcript_segments at h
  rcases hrs : run_segments (init_state mid per off) segs with er | ⟨st', evs'⟩
  · rw [show run_segments
        { match_id := mid, period := per, offset_seconds := off } segs
        = Except.error er from hrs] at h
    simp [Except.map] at h
  · rw [show run_segments
        { match_id := mid, period := per, offset_seconds := off } segs
        = Except.ok (st', evs') from hrs] at h
    simp only [Except.map, Except.ok.injEq] at h
    subst h
    refine ⟨st', rfl, ?_⟩
    have := inv_segments mid per off segs (init_state mid per off) []
      (inv_init mid per off) st' evs' hrs
    simpa using this

/-! ## Claim theorems -/

/-- C1: every emitted `post_loss_reaction` event's `trigger_event_id` is the
id of the most recent prior event of the run whose outcome was a possession
loss to the opponent (first-touch `rebound_opponent`, or an on-ball action
with outcome team `opponent`/`out_of_play`, the spec's "sends the ball to the
opponent" set), and null when no such event has occurred yet; qualifying
events are necessarily earlier `first_touch`/`on_ball_action` events. -/
theorem c1_post_loss_trigger_linkage (segs : List RawSegment)
    (mid per : String) (off : ℚ) (evs : List Event)
    (h : parse_transcript_segments segs mid per off = .ok evs)
    (i : Nat) (hi : i < evs.length)
    (hT : (evs.get ⟨i, hi⟩).event_type = "post_loss_reaction") :
    (evs.get ⟨i, hi⟩).trigger_event_id = some (last_loss_ref (evs.take i)) := by
  obtain ⟨st', _, hInv⟩ := parse_inv segs mid per off evs h
  exact hInv.triggers i hi hT

def c1_segs : List RawSegment :=
  [{ start := some (.num 10), stop := some (.num 11),
     text := some (.str "Blue seven first touch low, rebound to opponent.") },
   { start := some (.num 17), stop := some (.num 18),
     text := some (.str "After losing it, Blue seven immediate press, wins it back herself.") }]

def c1_evs : List Event :=
  match parse_transcript_segments c1_segs "m" "1" 0 with
  | .ok l => l
  | .error _ => []

theorem c1_post_loss_trigger_linkage_witness :
    (c1_evs.get ⟨1, by decide⟩).trigger_event_id = some (some "m-1") :=
  (c1_post_loss_trigger_linkage c1_segs "m" "1" 0 c1_evs rfl 1 (by decide)
    (by decide)).trans (by decide)

/-- C2: a successful parse producing `k` events carries event ids
`{match_id}-1 … {match_id}-k` in emission order — the counter starts at 1,
is bumped exactly once per emitted event, and never for a non-matching
fragment. -/
theorem c2_event_ids_are_consecutive (segs : List RawSegment)
    (mid per : String) (off : ℚ) (evs : List Event)
    (h : parse_transcript_segments segs mid per off = .ok evs)
    (i : Nat) (hi : i < evs.length) :
    (evs.get ⟨i, hi⟩).event_id = mid ++ "-" ++ toString (i + 1) := by
  obtain ⟨st', _, hInv⟩ := parse_inv segs mid per off evs h
  exact hInv.ids i hi

theorem c2_event_ids_are_consecutive_witness :
    (c1_evs.get ⟨0, by decide⟩).event_id = "m-1" ∧
    (c1_evs.get ⟨1, by decide⟩).event_id = "m-2" :=
  ⟨(c2_event_ids_are_consecutive c1_segs "m" "1" 0 c1_evs rfl 0
      (by decide)).trans (by decide),
   (c2_event_ids_are_consecutive c1_segs "m" "1" 0 c1_evs rfl 1
      (by decide)).trans (by decide)⟩

/-- C9: no parse output ever carries `carry_flag = true`; every
`on_ball_action` event carries `carry_flag = false` (and only that family
has the key at all). -/
theorem c9_carry_flag_constant (segs : List RawSegment)
    (mid per : String) (off : ℚ) (evs : List Event)
    (h : parse_transcript_segments segs mid per off = .ok evs)
    (e : Event) (he : e ∈ evs) :
    e.carry_flag ≠ some true ∧
    (e.event_type = "on_ball_action" → e.carry_flag = some false) := by
  obtain ⟨st', _, hInv⟩ := parse_inv segs mid per off evs h
  obtain ⟨h1, h2⟩ := hInv.carry e he
  constructor
  · by_cases ht : e.event_type = "on_ball_action"
    · rw [h1 ht]; simp
    · rw [h2 ht]; simp
  · exact h1

def c9_segs : List RawSegment :=
  [{ start := some (.num 0), stop := some (.num 1),
     text := some (.str "Blue seven first touch high, controlled.") },
   { start := some (.num 2), stop := some (.num 3),
     text := some (.str "Blue seven one-touch pass, completed.") }]

def c9_evs : List Event :=
  match parse_transcript_segments c9_segs "m" "1" 0 with
  | .ok l => l
  | .error _ => []

theorem c9_carry_flag_constant_witness :
    (c9_evs.get ⟨1, by decide⟩).carry_flag ≠ some true ∧
    (c9_evs.get ⟨1, by decide⟩).carry_flag = some false :=
  ⟨(c9_carry_flag_constant c9_segs "m" "1" 0 c9_evs rfl _
      (List.get_mem c9_evs 1 (by decide))).1,
   (c9_carry_flag_constant c9_segs "m" "1" 0 c9_evs rfl _
      (List.get_mem c9_evs 1 (by decide))).2 (by decide)⟩

/-- C10: on every emitted event `sequence_id` equals `possession_id`
(set together or both null), and `post_loss_reaction` events always have
both null. -/
theorem c10_sequence_id_mirrors_possession_id (segs : List RawSegment)
    (mid per : String) (off : ℚ) (evs : List Event)
    (h : parse_transcript_segments segs mid per off = .ok evs)
    (e : Event) (he : e ∈ evs) :
    e.sequence_id = e.possession_id ∧
    (e.event_type = "post_loss_reaction" → e.possession_id = none) := by
  obtain ⟨st', _, hInv⟩ := parse_inv segs mid per off evs h
  exact ⟨hInv.seq_eq e he, hInv.plr_pid e he⟩

theorem c10_sequence_id_mirrors_possession_id_witness :
    (c1_evs.get ⟨1, by decide⟩).sequence_id =
      (c1_evs.get ⟨1, by decide⟩).possession_id ∧
    (c1_evs.get ⟨1, by decide⟩).possession_id = none :=
  ⟨(c10_sequence_id_mirrors_possession_id c1_segs "m" "1" 0 c1_evs rfl _
      (List.get_mem c1_evs 1 (by decide))).1,
   (c10_sequence_id_mirrors_possession_id c1_segs "m" "1" 0 c1_evs rfl _
      (List.get_mem c1_evs 1 (by decide))).2 (by decide)⟩

/-- C3: (i) two adjacent first-touch events by the same team with no loss of
possession between them (i.e. the first one maintained possession) carry the
same `possession_id`; (ii) a first touch processed while no possession is
open, or while the open possession belongs to another team, is assigned a
possession id strictly greater than every possession id issued earlier in
the run. -/
theorem c3_possession_continuity :
    (∀ (segs : List RawSegment) (mid per : String) (off : ℚ)
       (evs : List Event),
       parse_transcript_segments segs mid per off = .ok evs →
       List.Chain' same_chain_rel evs) ∧
    (∀ (mid per : String) (off : ℚ) (ps : List (Segment × String))
       (seg : Segment) (raw : String) (st' : ParserState) (e : Event),
       process_fragment (run_frag_list (init_state mid per off) ps).1 seg raw
         = (st', some e) →
       e.event_type = "first_touch" →
       ((run_frag_list (init_state mid per off) ps).1.possession_open = false ∨
        (run_frag_list (init_state mid per off) ps).1.possession_owner_team
          ≠ some e.team) →
       ∃ m : Nat, e.possession_id = some (toString m) ∧
         ∀ e' ∈ (run_frag_list (init_state mid per off) ps).2, ∀ s,
           e'.possession_id = some s → ∃ k : Nat, s = toString k ∧ k < m) := by
  constructor
  · intro segs mid per off evs h
    obtain ⟨st', _, hInv⟩ := parse_inv segs mid per off evs h
    exact hInv.chain
  · intro mid per off ps seg raw st' e h hT hcond
    have hInv : Inv mid per off (run_frag_list (init_state mid per off) ps).1
        (run_frag_list (init_state mid per off) ps).2 := by
      simpa using inv_run mid per off ps (init_state mid per off) []
        (inv_init mid per off)
    rcases process_fragment_cases _ seg raw st' (some e) h with
      ⟨hne, _⟩ | ⟨e2, he2, hcase⟩
    · cases hne
    · obtain rfl : e = e2 := (Option.some.injEq .. ▸ he2)
      rcases hcase with hft | hob | hpl
      · obtain ⟨F1, F2, F3, F4, F5, F6, F7, F8, F9, F10, F11, F12, F13, F14,
          F15, F16, F17, F18⟩ := parse_first_touch_spec _ _ _ _ _ _ hft
        have hq : ¬((run_frag_list (init_state mid per off) ps).1.possession_open
              = true ∧
            (run_frag_list (init_state mid per off) ps).1.possession_owner_team
              = some e.team) := by
          rcases hcond with hc | hc
          · intro hand; rw [hc] at hand; cases hand.1
          · intro hand; exact hc hand.2
        refine ⟨st'.current_possession_id, F10, ?_⟩
        intro e' he' s hs
        obtain ⟨k, hk1, hk2, hk3⟩ := hInv.pid_bound e' he' s hs
        refine ⟨k, hk1, ?_⟩
        rw [F12 hq]
        omega
      · obtain ⟨O1, _⟩ := parse_on_ball_action_spec _ _ _ _ _ _ hob
        rw [O1] at hT; exact absurd hT (by decide)
      · obtain ⟨P1, _⟩ := parse_post_loss_reaction_spec _ _ _ _ _ _ hpl
        rw [P1] at hT; exact absurd hT (by decide)

def dummy_event : Event :=
  { event_id := "", match_id := "", period := "", video_time_s := 0,
    team := "", player_jersey_number := "", event_type := "",
    source_phrase := "" }

def c3_seg : Segment := { start := 0, stop := 1, text := "" }

def c3i_segs : List RawSegment :=
  [{ start := some (.num 0), stop := some (.num 1),
     text := some (.str "Blue seven first touch high, controlled.") },
   { start := some (.num 2), stop := some (.num 3),
     text := some (.str "Blue seven first touch high, controlled.") }]

def c3i_evs : List Event :=
  match parse_transcript_segments c3i_segs "m" "1" 0 with
  | .ok l => l
  | .error _ => []

def c3_ps : List (Segment × String) :=
  [(c3_seg, "Blue seven first touch high, controlled.")]

def c3_res : ParserState × Option Event :=
  process_fragment (run_frag_list (init_state "m" "1" 0) c3_ps).1 c3_seg
    "White nine first touch high, controlled."

def c3_ev : Event := (c3_res.2).getD dummy_event

theorem c3_possession_continuity_witness :
    (List.Chain' same_chain_rel c3i_evs ∧
      (c3i_evs.get ⟨0, by decide⟩).possession_id = some "1" ∧
      (c3i_evs.get ⟨1, by decide⟩).possession_id = some "1") ∧
    ∃ m : Nat, c3_ev.possession_id = some (toString m) ∧
      ∀ e' ∈ (run_frag_list (init_state "m" "1" 0) c3_ps).2, ∀ s,
        e'.possession_id = some s → ∃ k : Nat, s = toString k ∧ k < m :=
  ⟨⟨c3_possession_continuity.1 c3i_segs "m" "1" 0 c3i_evs rfl,
    by decide, by decide⟩,
   c3_possession_continuity.2 "m" "1" 0 c3_ps c3_seg
     "White nine first touch high, controlled." c3_res.1 c3_ev rfl
     (by decide) (by decide)⟩

/-- C4: an emitted `on_ball_action` inherits the open possession's id as
both `possession_id` and `sequence_id` exactly when a possession is open
and owned by the acting team at the moment its fragment is processed;
otherwise both stay null.  It never opens a possession nor allocates a new
possession id. -/
theorem c4_on_ball_inherits_open_possession (st : ParserState) (seg : Segment)
    (raw : String) (st' : ParserState) (e : Event)
    (h : process_fragment st seg raw = (st', some e))
    (hT : e.event_type = "on_ball_action") :
    (st.possession_open = true ∧ st.possession_owner_team = some e.team →
      e.possession_id = some (toString st.current_possession_id) ∧
      e.sequence_id = some (toString st.current_possession_id)) ∧
    (¬(st.possession_open = true ∧ st.possession_owner_team = some e.team) →
      e.possession_id = none ∧ e.sequence_id = none) ∧
    st'.current_possession_id = st.current_possession_id ∧
    (st'.possession_open = true → st.possession_open = true) := by
  rcases process_fragment_cases st seg raw st' (some e) h with
    ⟨hne, _⟩ | ⟨e2, he2, hcase⟩
  · cases hne
  · obtain rfl : e = e2 := (Option.some.injEq .. ▸ he2)
    rcases hcase with hft | hob | hpl
    · obtain ⟨F1, _⟩ := parse_first_touch_spec _ _ _ _ _ _ hft
      rw [F1] at hT; exact absurd hT (by decide)
    · obtain ⟨O1, O2, O3, O4, O5, O6, O7, O8, O9, O10, O11, O12, O13, O14,
        O15⟩ := parse_on_ball_action_spec _ _ _ _ _ _ hob
      exact ⟨fun hq => ⟨O11 hq, O7.trans (O11 hq)⟩,
        fun hq => ⟨O12 hq, O7.trans (O12 hq)⟩, O10, O13⟩
    · obtain ⟨P1, _⟩ := parse_post_loss_reaction_spec _ _ _ _ _ _ hpl
      rw [P1] at hT; exact absurd hT (by decide)

def c4_st : ParserState :=
  { match_id := "m", period := "1", offset_seconds := 0, event_counter := 1,
    last_loss_event_id := none, current_possession_id := 1,
    possession_owner_team := some "Blue", possession_open := true }

def c4_res : ParserState × Option Event :=
  process_fragment c4_st c3_seg "Blue seven one-touch pass, completed."

def c4_ev : Event := (c4_res.2).getD dummy_event

theorem c4_on_ball_inherits_open_possession_witness :
    c4_ev.possession_id = some "1" ∧ c4_ev.sequence_id = some "1" ∧
    c4_res.1.current_possession_id = c4_st.current_possession_id := by
  have hspec := c4_on_ball_inherits_open_possession c4_st c3_seg
    "Blue seven one-touch pass, completed." c4_res.1 c4_ev rfl (by decide)
  obtain ⟨hpid, hseq⟩ := hspec.1 (by decide)
  exact ⟨hpid.trans (by decide), hseq.trans (by decide), hspec.2.2.1⟩

/-- C7 (code behaviour at the failing input): a segment with a *missing*
`start` is indeed parsed with video time `0 + offset`, but a segment with a
*negative* `start` keeps its negative start time — `_to_segment` never
clamps, so `video_time_s` comes out negative instead of the specified
`0.0 + offset_seconds`. -/
theorem c7_negative_start_not_clamped :
    ((parse_transcript_segments
        [{ start := none, stop := none,
           text := some (.str "Blue seven first touch high, controlled.") }]
        "m" "1" 5).map (fun l => l.map (fun e => e.video_time_s))
      = .ok [(0 : ℚ) + 5] ∧ (0 : ℚ) + 5 = 5) ∧
    ((parse_transcript_segments
        [{ start := some (.num (-7)), stop := none,
           text := some (.str "Blue seven first touch high, controlled.") }]
        "m" "1" 5).map (fun l => l.map (fun e => e.video_time_s))
      = .ok [(-7 : ℚ) + 5] ∧ (-7 : ℚ) + 5 = -2) :=
  ⟨⟨rfl, by norm_num⟩, ⟨rfl, by norm_num⟩⟩

/-- C8 (code behaviour at the failing input): a segment dict whose `start`
is a non-numeric string makes `float(...)` raise inside `_to_segment`, so
`parse_transcript_segments` rejects the whole run instead of returning an
event list — the parser is not total over malformed segment dicts. -/
theorem c8_parser_raises_on_bad_start :
    parse_transcript_segments
        [{ start := some (.str "not a number"), stop := none,
           text := some (.str "Blue seven first touch high, controlled.") }]
        "m" "1" 0
      = .error () ∧
    parse_transcript_segments
        [{ start := some (.null), stop := none,
           text := some (.str "x") }] "m" "1" 0
      = .error () :=
  ⟨rfl, rfl⟩

/-! ## C5: the out-for restart branch and the conservative fallback -/

theorem lit_ci_head {α : Type} (p : Char) (ps : List Char)
    (k : List Char → Option α) (cs : List Char)
    (h : (lit_ci (p :: ps) k cs).isSome = true) :
    ∃ c cs', cs = c :: cs' ∧ ci_char c p = true := by
  cases cs with
  | nil => simp [lit_ci] at h
  | cons c cs' =>
      by_cases hc : ci_char c p
      · exact ⟨c, cs', rfl, hc⟩
      · rw [lit_ci, if_neg (by simpa using hc)] at h
        simp at h

theorem lit_ex_head {α : Type} (p : Char) (ps : List Char)
    (k : List Char → Option α) (cs : List Char)
    (h : (lit_ex (p :: ps) k cs).isSome = true) :
    ∃ c cs', cs = c :: cs' ∧ c = p := by
  cases cs with
  | nil => simp [lit_ex] at h
  | cons c cs' =>
      by_cases hc : c = p
      · exact ⟨c, cs', rfl, hc⟩
      · rw [lit_ex, if_neg hc] at h
        simp at h

/-- A clause that matches `OUT_FOR_RE` starts with an `o`, so none of the
completion/interception patterns (which need `t`, `c`, or `i`) can match
it. -/
theorem out_for_disjoint (cs : List Char) (r : List Char)
    (h : out_for_re cs = some r) :
    completion_to_re (cs.map lower_char) = false ∧
    completed_re cs = false ∧ to_opponent_re cs = false := by
  have hsome : (lit_ci (t "out") (ws_plus (lit_ci (t "for") (ws_plus (
      alt_ci [t "throw", t "goal kick", t "corner"] (fun restart r =>
        if opt_dot_end r then some restart else none))))) cs).isSome = true := by
    rw [show (lit_ci (t "out") (ws_plus (lit_ci (t "for") (ws_plus (
      alt_ci [t "throw", t "goal kick", t "corner"] (fun restart r =>
        if opt_dot_end r then some restart else none))))) cs) = some r from h]
    rfl
  obtain ⟨c, cs', rfl, hc⟩ := lit_ci_head _ _ _ _ hsome
  have hco : lower_char c = 'o' := by simpa [ci_char] using hc
  refine ⟨?_, ?_, ?_⟩
  · rw [completion_to_re]
    by_cases hx : (lit_ex (t "to") (ws_plus (dot_plus (ws_plus (lit_ex
        (t "completed") (fun r => if opt_dot_end r then some () else none)))))
        ((c :: cs').map lower_char)).isSome = true
    · obtain ⟨c2, cs2, he, hc2⟩ := lit_ex_head _ _ _ _ hx
      rw [List.map_cons] at he
      have h1 : lower_char c = c2 := (List.cons.injEq .. ▸ he).1
      rw [hco] at h1
      rw [← h1] at hc2
      exact absurd hc2 (by decide)
    · simpa using hx
  · rw [completed_re]
    by_cases hx : (lit_ci (t "completed") (fun r =>
        (ws_plus (lit_ci (t "to") (ws_plus (fun r2 =>
          if (dot_plus_end r2).isSome then some () else none))) r) <|>
        (if opt_dot_end r then some () else none)) (c :: cs')).isSome = true
    · obtain ⟨c2, cs2, he, hc2⟩ := lit_ci_head _ _ _ _ hx
      have hcc : c2 = c := (List.cons.injEq .. ▸ he.symm).1
      rw [hcc] at hc2
      have h1 : lower_char c = 'c' := by simpa [ci_char] using hc2
      rw [hco] at h1
      exact absurd h1 (by decide)
    · simpa using hx
  · rw [to_opponent_re]
    rcases ha : lit_ci (t "to") (ws_plus (lit_ci (t "opponent") (fun r =>
        if opt_dot_end r then some () else none))) (c :: cs') with _ | u
    · rcases hb : lit_ci (t "intercepted") (fun r =>
          (ws_plus (lit_ci (t "by") (ws_plus (lit_ci (t "opponent") (fun r2 =>
            if opt_dot_end r2 then some () else none)))) r) <|>
          (if opt_dot_end r then some () else none)) (c :: cs') with _ | u
      · rfl
      · have hx : (lit_ci (t "intercepted") (fun r =>
            (ws_plus (lit_ci (t "by") (ws_plus (lit_ci (t "opponent")
              (fun r2 => if opt_dot_end r2 then some () else none)))) r) <|>
            (if opt_dot_end r then some () else none)) (c :: cs')).isSome
            = true := by rw [hb]; rfl
        obtain ⟨c2, cs2, he, hc2⟩ := lit_ci_head _ _ _ _ hx
        have hcc : c2 = c := (List.cons.injEq .. ▸ he.symm).1
        rw [hcc] at hc2
        have h1 : lower_char c = 'i' := by simpa [ci_char] using hc2
        rw [hco] at h1
        exact absurd h1 (by decide)
    · have hx : (lit_ci (t "to") (ws_plus (lit_ci (t "opponent") (fun r =>
          if opt_dot_end r then some () else none))) (c :: cs')).isSome
          = true := by rw [ha]; rfl
      obtain ⟨c2, cs2, he, hc2⟩ := lit_ci_head _ _ _ _ hx
      have hcc : c2 = c := (List.cons.injEq .. ▸ he.symm).1
      rw [hcc] at hc2
      have h1 : lower_char c = 't' := by simpa [ci_char] using hc2
      rw [hco] at h1
      exact absurd h1 (by decide)

/-- C5: an outcome clause matching `out for <restart>` is classified
`out_of_play`, with next possession `same_team` for a throw and `opponent`
for a goal kick or corner; a clause matching none of the outcome patterns
(including the on/off-target substring checks) falls back to
`loose`/`blocked`/`contested`. -/
theorem c5_out_for_and_fallback (clause : List Char) (action_type : String) :
    (out_for_re (strip_ws clause) = some (t "throw") →
      (parse_on_ball_outcome clause action_type).action_outcome_team
        = "out_of_play" ∧
      (parse_on_ball_outcome clause action_type).next_possession_team
        = "same_team") ∧
    ((out_for_re (strip_ws clause) = some (t "goal kick") ∨
      out_for_re (strip_ws clause) = some (t "corner")) →
      (parse_on_ball_outcome clause action_type).action_outcome_team
        = "out_of_play" ∧
      (parse_on_ball_outcome clause action_type).next_possession_team
        = "opponent") ∧
    (completion_to_re ((strip_ws clause).map lower_char) = false →
      completed_re (strip_ws clause) = false →
      to_opponent_re (strip_ws clause) = false →
      out_for_re (strip_ws clause) = none →
      blocked_re (strip_ws clause) = false →
      has_sub (t "on target") ((strip_ws clause).map lower_char) = false →
      has_sub (t "off target") ((strip_ws clause).map lower_char) = false →
      parse_on_ball_outcome clause action_type
        = ⟨"loose", "blocked", "contested"⟩) := by
  refine ⟨?_, ?_, ?_⟩
  · intro hout
    obtain ⟨h1, h2, h3⟩ := out_for_disjoint _ _ hout
    simp only [parse_on_ball_outcome, h1, h2, h3, hout]
    simp
    decide
  · intro hout
    rcases hout with hout | hout <;>
    · obtain ⟨h1, h2, h3⟩ := out_for_disjoint _ _ hout
      simp only [parse_on_ball_outcome, h1, h2, h3, hout]
      simp
      decide
  · intro h1 h2 h3 h4 h5 h6 h7
    simp only [parse_on_ball_outcome, h1, h2, h3, h4, h5, h6, h7]
    simp

theorem c5_out_for_and_fallback_witness :
    ((parse_on_ball_outcome (t "out for throw") "pass").action_outcome_team
        = "out_of_play" ∧
     (parse_on_ball_outcome (t "out for throw") "pass").next_possession_team
        = "same_team") ∧
    ((parse_on_ball_outcome (t "out for corner") "clearance").action_outcome_team
        = "out_of_play" ∧
     (parse_on_ball_outcome (t "out for corner") "clearance").next_possession_team
        = "opponent") ∧
    parse_on_ball_outcome (t "somebody shouts") "pass"
        = ⟨"loose", "blocked", "contested"⟩ :=
  ⟨(c5_out_for_and_fallback (t "out for throw") "pass").1 (by decide),
   (c5_out_for_and_fallback (t "out for corner") "clearance").2.1
     (Or.inr (by decide)),
   (c5_out_for_and_fallback (t "somebody shouts") "pass").2.2 (by decide)
     (by decide) (by decide) (by decide) (by decide) (by decide) (by decide)⟩

/-! ## C6: properties of `_normalize_phrase` -/

/-- Adjacent characters are never both whitespace. -/
def no_ws_pair (a b : Char) : Prop :=
  ¬(is_space a = true ∧ is_space b = true)

/-- The verified output shape of `_normalize_phrase`: no ASCII uppercase
letter, no en dash, all whitespace is a single-space character, no two
adjacent whitespace characters, and neither end carries a space or
sentence punctuation mark. -/
def good_str (cs : List Char) : Prop :=
  (∀ c ∈ cs, ¬(65 ≤ c.toNat ∧ c.toNat ≤ 90)) ∧
  '–' ∉ cs ∧
  (∀ c ∈ cs, is_space c = true → c = ' ') ∧
  List.Chain' no_ws_pair cs ∧
  (∀ c, cs.head? = some c → sentence_punct c = false) ∧
  (∀ c, cs.getLast? = some c → sentence_punct c = false)

theorem no_ws_pair_symm (a b : Char) (h : no_ws_pair a b) : no_ws_pair b a :=
  fun hc => h ⟨hc.2, hc.1⟩

theorem lower_char_not_upper (c : Char) :
    ¬(65 ≤ (lower_char c).toNat ∧ (lower_char c).toNat ≤ 90) := by
  rw [lower_char, Char.toLower]
  split
  · rename_i h
    have hv : Nat.isValidChar (c.toNat + 32) := by
      left; omega
    rw [Char.ofNat, dif_pos hv]
    rw [show ∀ (n : Nat) (hn : Nat.isValidChar n),
      (Char.ofNatAux n hn).toNat = n from fun n hn => rfl]
    omega
  · rename_i h
    omega

/-- Collapsing whitespace only deletes characters or introduces spaces. -/
theorem collapse_go_mem : ∀ (b : Bool) (cs : List Char) (c : Char),
    c ∈ collapse_go b cs → c = ' ' ∨ c ∈ cs
  | _, [], c, h => by simp [collapse_go] at h
  | b, x :: cs, c, h => by
      rw [collapse_go] at h
      split_ifs at h with h1 h2
      · rcases collapse_go_mem true cs c h with h3 | h3
        · exact Or.inl h3
        · exact Or.inr (List.mem_cons_of_mem x h3)
      · rcases List.mem_cons.mp h with h3 | h3
        · exact Or.inl h3
        · rcases collapse_go_mem true cs c h3 with h4 | h4
          · exact Or.inl h4
          · exact Or.inr (List.mem_cons_of_mem x h4)
      · rcases List.mem_cons.mp h with h3 | h3
        · exact Or.inr (h3 ▸ List.mem_cons_self x cs)
        · rcases collapse_go_mem false cs c h3 with h4 | h4
          · exact Or.inl h4
          · exact Or.inr (List.mem_cons_of_mem x h4)

/-- Every whitespace character the collapse emits is a plain space. -/
theorem collapse_go_ws : ∀ (b : Bool) (cs : List Char) (c : Char),
    c ∈ collapse_go b cs → is_space c = true → c = ' '
  | _, [], c, h, _ => by simp [collapse_go] at h
  | b, x :: cs, c, h, hws => by
      rw [collapse_go] at h
      split_ifs at h with h1 h2
      · exact collapse_go_ws true cs c h hws
      · rcases List.mem_cons.mp h with h3 | h3
        · exact h3
        · exact collapse_go_ws true cs c h3 hws
      · rcases List.mem_cons.mp h with h3 | h3
        · exact absurd (h3 ▸ hws) h1
        · exact collapse_go_ws false cs c h3 hws

/-- After an emitted space the collapse continues with a non-space. -/
theorem collapse_go_head : ∀ (cs : List Char) (c : Char),
    (collapse_go true cs).head? = some c → is_space c = false
  | [], c, h => by simp [collapse_go] at h
  | x :: cs, c, h => by
      by_cases h1 : is_space x = true
      · rw [collapse_go, if_pos h1, if_pos rfl] at h
        exact collapse_go_head cs c h
      · rw [collapse_go, if_neg h1] at h
        rw [List.head?_cons, Option.some.injEq] at h
        subst h
        exact Bool.eq_false_iff.mpr h1

/-- The collapse output never has two adjacent whitespace characters. -/
theorem collapse_go_chain : ∀ (b : Bool) (cs : List Char),
    List.Chain' no_ws_pair (collapse_go b cs)
  | _, [] => by simp [collapse_go]
  | b, x :: cs => by
      rw [collapse_go]
      split_ifs with h1 h2
      · exact collapse_go_chain true cs
      · rw [List.chain'_cons']
        refine ⟨?_, collapse_go_chain true cs⟩
        intro y hy
        intro hc
        rw [collapse_go_head cs y hy] at hc
        cases hc.2
      · rw [List.chain'_cons']
        refine ⟨?_, collapse_go_chain false cs⟩
        intro y hy
        intro hc
        rw [hc.1] at h1
        cases h1 rfl

theorem suffix_getLast? {l1 l2 : List Char} (h : l1.IsSuffix l2) (c : Char)
    (hc : l1.getLast? = some c) : l2.getLast? = some c := by
  obtain ⟨pre, rfl⟩ := h
  cases l1 with
  | nil => cases hc
  | cons x xs =>
      rw [List.getLast?_append_of_ne_nil pre (List.cons_ne_nil x xs)]
      exact hc

theorem chain'_of_suffix {R : Char → Char → Prop} {l1 l2 : List Char}
    (h : l1.IsSuffix l2) (hc : List.Chain' R l2) : List.Chain' R l1 := by
  obtain ⟨pre, rfl⟩ := h
  exact (List.chain'_append.mp hc).2.1

theorem chain'_reverse_of {R : Char → Char → Prop}
    (hsymm : ∀ a b, R a b → R b a) {l : List Char}
    (hc : List.Chain' R l) : List.Chain' R l.reverse := by
  rw [List.chain'_reverse]
  exact List.Chain'.imp (fun a b hab => hsymm a b hab) hc

theorem strip_set_mem (bad : Char → Bool) (l : List Char) (c : Char)
    (h : c ∈ strip_set bad l) : c ∈ l := by
  rw [strip_set] at h
  rw [List.mem_reverse] at h
  have h2 := (List.dropWhile_suffix bad).subset h
  rw [List.mem_reverse] at h2
  exact (List.dropWhile_suffix bad).subset h2

theorem strip_set_head (bad : Char → Bool) (l : List Char) (c : Char)
    (h : (strip_set bad l).head? = some c) : bad c = false := by
  rw [strip_set, List.head?_reverse] at h
  have h2 := suffix_getLast? (List.dropWhile_suffix bad) c h
  rw [List.getLast?_reverse] at h2
  have h3 := List.head?_dropWhile_not bad l
  rw [h2] at h3
  exact h3

theorem strip_set_last (bad : Char → Bool) (l : List Char) (c : Char)
    (h : (strip_set bad l).getLast? = some c) : bad c = false := by
  rw [strip_set, List.getLast?_reverse] at h
  have h3 := List.head?_dropWhile_not bad ((l.dropWhile bad).reverse)
  rw [h] at h3
  exact h3

theorem strip_set_chain {R : Char → Char → Prop}
    (hsymm : ∀ a b, R a b → R b a) (bad : Char → Bool) (l : List Char)
    (hc : List.Chain' R l) : List.Chain' R (strip_set bad l) := by
  rw [strip_set]
  refine chain'_reverse_of hsymm ?_
  refine chain'_of_suffix (List.dropWhile_suffix bad) ?_
  refine chain'_reverse_of hsymm ?_
  exact chain'_of_suffix (List.dropWhile_suffix bad) hc

section SubGoFacts

variable (p0 : PatTok) (ps : List PatTok) (repl : List Char)

theorem sub_go_nil : ∀ (n : Nat) (prev : Option Char),
    sub_go p0 ps repl n prev [] = []
  | 0, _ => rfl
  | _ + 1, _ => rfl

theorem sub_go_mem : ∀ (cs : List Char) (n : Nat) (prev : Option Char)
    (c : Char), c ∈ sub_go p0 ps repl n prev cs → c ∈ repl ∨ c ∈ cs := by
  intro cs
  induction cs with
  | nil =>
      intro n prev c h
      rw [sub_go_nil] at h
      cases h
  | cons x cs ih =>
      intro n prev c h
      cases n with
      | succ m =>
          rw [sub_go] at h
          rcases ih m (some x) c h with h2 | h2
          · exact Or.inl h2
          · exact Or.inr (List.mem_cons_of_mem x h2)
      | zero =>
          rw [sub_go] at h
          split at h
          · split_ifs at h with hb
            · rcases List.mem_append.mp h with h2 | h2
              · exact Or.inl h2
              · rcases ih _ (some x) c h2 with h3 | h3
                · exact Or.inl h3
                · exact Or.inr (List.mem_cons_of_mem x h3)
            · rcases List.mem_cons.mp h with h2 | h2
              · exact Or.inr (h2 ▸ List.mem_cons_self x cs)
              · rcases ih 0 (some x) c h2 with h3 | h3
                · exact Or.inl h3
                · exact Or.inr (List.mem_cons_of_mem x h3)
          · rcases List.mem_cons.mp h with h2 | h2
            · exact Or.inr (h2 ▸ List.mem_cons_self x cs)
            · rcases ih 0 (some x) c h2 with h3 | h3
              · exact Or.inl h3
              · exact Or.inr (List.mem_cons_of_mem x h3)

theorem sub_go_zero_cons_ne (hrepl : repl ≠ []) (prev : Option Char)
    (x : Char) (cs : List Char) :
    sub_go p0 ps repl 0 prev (x :: cs) ≠ [] := by
  rw [sub_go]
  split
  · split_ifs with hb
    · intro hcon
      rcases List.append_eq_nil.mp hcon with ⟨h1, _⟩
      exact hrepl h1
    · exact List.cons_ne_nil _ _
  · exact List.cons_ne_nil _ _

theorem sub_go_head (hrepl : repl ≠ []) (prev : Option Char) (x : Char)
    (cs : List Char) (c : Char)
    (h : (sub_go p0 ps repl 0 prev (x :: cs)).head? = some c) :
    repl.head? = some c ∨ c = x := by
  rw [sub_go] at h
  split at h
  · split_ifs at h with hb
    · rcases hr : repl with _ | ⟨r, rs⟩
      · exact absurd hr hrepl
      · rw [hr, List.cons_append, List.head?_cons, Option.some.injEq] at h
        exact Or.inl (by rw [List.head?_cons, h])
    · rw [List.head?_cons, Option.some.injEq] at h
      exact Or.inr h.symm
  · rw [List.head?_cons, Option.some.injEq] at h
    exact Or.inr h.symm

theorem sub_go_last (hrepl : repl ≠ []) : ∀ (cs : List Char) (n : Nat)
    (prev : Option Char) (c : Char),
    (sub_go p0 ps repl n prev cs).getLast? = some c →
    repl.getLast? = some c ∨ cs.getLast? = some c := by
  intro cs
  induction cs with
  | nil =>
      intro n prev c h
      rw [sub_go_nil] at h
      cases h
  | cons x cs ih =>
      intro n prev c h
      have hcons : ∀ (out : List Char),
          out = sub_go p0 ps repl 0 (some x) cs →
          (x :: out).getLast? = some c →
          repl.getLast? = some c ∨ (x :: cs).getLast? = some c := by
        intro out hout hlast
        cases cs with
        | nil =>
            rw [hout, sub_go_nil] at hlast
            exact Or.inr hlast
        | cons y cs2 =>
            have hne : out ≠ [] := hout ▸
              sub_go_zero_cons_ne p0 ps repl hrepl (some x) y cs2
            rw [show (x :: out) = [x] ++ out from rfl,
              List.getLast?_append_of_ne_nil [x] hne] at hlast
            rcases ih 0 (some x) c (hout ▸ hlast) with h3 | h3
            · exact Or.inl h3
            · exact Or.inr (suffix_getLast? (List.suffix_cons x (y :: cs2))
                c h3)
      cases n with
      | succ m =>
          rw [sub_go] at h
          rcases ih m (some x) c h with h3 | h3
          · exact Or.inl h3
          · exact Or.inr (suffix_getLast? (List.suffix_cons x cs) c h3)
      | zero =>
          rw [sub_go] at h
          split at h
          · split_ifs at h with hb
            · rename_i rest hm
              by_cases hout : sub_go p0 ps repl
                  ((x :: cs).length - rest.length - 1) (some x) cs = []
              · rw [hout, List.append_nil] at h
                exact Or.inl h
              · rw [List.getLast?_append_of_ne_nil repl hout] at h
                rcases ih _ (some x) c h with h3 | h3
                · exact Or.inl h3
                · exact Or.inr (suffix_getLast? (List.suffix_cons x cs) c h3)
            · exact hcons _ rfl h
          · exact hcons _ rfl h

end SubGoFacts

theorem sub_go_chain (p0 : PatTok) (ps : List PatTok) (repl : List Char)
    (hrepl : repl ≠ [])
    (hrh : ∀ c, repl.head? = some c → is_space c = false)
    (hrl : ∀ c, repl.getLast? = some c → is_space c = false)
    (hrc : List.Chain' no_ws_pair repl) :
    ∀ (cs : List Char) (n : Nat) (prev : Option Char),
    List.Chain' no_ws_pair cs →
    List.Chain' no_ws_pair (sub_go p0 ps repl n prev cs) := by
  intro cs
  induction cs with
  | nil =>
      intro n prev _
      rw [sub_go_nil]
      exact List.chain'_nil
  | cons x cs ih =>
      intro n prev hc
      have htail : List.Chain' no_ws_pair cs := (List.chain'_cons'.mp hc).2
      have hconsarm : List.Chain' no_ws_pair
          (x :: sub_go p0 ps repl 0 (some x) cs) := by
        rw [List.chain'_cons']
        refine ⟨?_, ih 0 (some x) htail⟩
        intro y hy
        cases cs with
        | nil =>
            rw [sub_go_nil] at hy
            cases hy
        | cons z cs2 =>
            rcases sub_go_head p0 ps repl hrepl (some x) z cs2 y
                (Option.mem_def.mp hy) with h2 | h2
            · intro hcon
              rw [hrh y h2] at hcon
              cases hcon.2
            · subst h2
              exact (List.chain'_cons'.mp hc).1 y (by simp)
      cases n with
      | succ m =>
          rw [sub_go]
          exact ih m (some x) htail
      | zero =>
          rw [sub_go]
          split
          · split_ifs with hb
            · rw [List.chain'_append]
              refine ⟨hrc, ih _ (some x) htail, ?_⟩
              intro a ha b hb2
              intro hcon
              rw [hrl a (Option.mem_def.mp ha)] at hcon
              cases hcon.1
            · exact hconsarm
          · exact hconsarm

theorem opt_all {α : Type} {P : α → Prop} (d : α) (hd : P d) {o : Option α}
    (h : o = some d) : ∀ c, o = some c → P c := by
  intro c hc
  rw [h, Option.some.injEq] at hc
  exact hc ▸ hd

/-- One `\b…\b` rewrite pass preserves the verified output shape, provided
the replacement text itself has that shape (nonempty, word-edged,
space-normal). -/
theorem sub_word_good (pat repl : String)
    (hne : repl.toList ≠ [])
    (hmem : ∀ c ∈ repl.toList,
      ¬(65 ≤ c.toNat ∧ c.toNat ≤ 90) ∧ c ≠ '–' ∧ (is_space c = true → c = ' '))
    (hh : ∀ c, repl.toList.head? = some c →
      is_space c = false ∧ sentence_punct c = false)
    (hl : ∀ c, repl.toList.getLast? = some c →
      is_space c = false ∧ sentence_punct c = false)
    (hch : List.Chain' no_ws_pair repl.toList)
    (cs : List Char) (hg : good_str cs) : good_str (sub_word pat repl cs) := by
  rw [sub_word]
  split
  · exact hg
  · rename_i p0 ps hp
    rw [sub_bd]
    obtain ⟨g1, g2, g3, g4, g5, g6⟩ := hg
    refine ⟨?_, ?_, ?_, ?_, ?_, ?_⟩
    · intro c hcmem
      rcases sub_go_mem p0 ps repl.toList cs 0 none c hcmem with h | h
      · exact (hmem c h).1
      · exact g1 c h
    · intro hcon
      rcases sub_go_mem p0 ps repl.toList cs 0 none '–' hcon with h | h
      · exact (hmem _ h).2.1 rfl
      · exact g2 h
    · intro c hcmem hws
      rcases sub_go_mem p0 ps repl.toList cs 0 none c hcmem with h | h
      · exact (hmem c h).2.2 hws
      · exact g3 c h hws
    · exact sub_go_chain p0 ps repl.toList hne (fun c hc => (hh c hc).1)
        (fun c hc => (hl c hc).1) hch cs 0 none g4
    · intro c hc
      cases cs with
      | nil =>
          rw [sub_go_nil] at hc
          cases hc
      | cons x cs2 =>
          rcases sub_go_head p0 ps repl.toList hne none x cs2 c hc with
            h2 | h2
          · exact (hh c h2).2
          · subst h2
            exact g5 _ rfl
    · intro c hc
      rcases sub_go_last p0 ps repl.toList hne cs 0 none c hc with h2 | h2
      · exact (hl c h2).2
      · exact g6 c h2

/-- The first five normalization stages (lowercase, dash fix, punctuation to
space, whitespace collapse, end strip) establish the verified shape. -/
theorem normalize_stage5_good (s : String) :
    good_str (strip_set sentence_punct (collapse_ws
      (((s.toList.map lower_char).map
          (fun c => if c = '–' then '-' else c)).map
        (fun c => if c = ',' ∨ c = ':' ∨ c = ';' then ' ' else c)))) := by
  refine ⟨?_, ?_, ?_, ?_, ?_, ?_⟩
  · intro c hc
    have h1 := strip_set_mem _ _ _ hc
    rcases collapse_go_mem false _ c h1 with h2 | h2
    · rw [h2]; decide
    · obtain ⟨b, hb, rfl⟩ := List.mem_map.mp h2
      split_ifs with hif
      · decide
      · obtain ⟨b2, hb2, rfl⟩ := List.mem_map.mp hb
        split_ifs with hif2
        · decide
        · obtain ⟨b3, hb3, rfl⟩ := List.mem_map.mp hb2
          exact lower_char_not_upper b3
  · intro hcon
    have h1 := strip_set_mem _ _ _ hcon
    rcases collapse_go_mem false _ _ h1 with h2 | h2
    · cases h2
    · obtain ⟨b, hb, heq⟩ := List.mem_map.mp h2
      by_cases hif : b = ',' ∨ b = ':' ∨ b = ';'
      · rw [if_pos hif] at heq
        cases heq
      · rw [if_neg hif] at heq
        subst heq
        obtain ⟨b2, hb2, heq2⟩ := List.mem_map.mp hb
        by_cases hif2 : b2 = '–'
        · rw [if_pos hif2] at heq2
          cases heq2
        · rw [if_neg hif2] at heq2
          exact hif2 heq2
  · intro c hc hws
    exact collapse_go_ws false _ c (strip_set_mem _ _ _ hc) hws
  · exact strip_set_chain no_ws_pair_symm sentence_punct _
      (collapse_go_chain false _)
  · intro c hc
    exact strip_set_head sentence_punct _ c hc
  · intro c hc
    exact strip_set_last sentence_punct _ c hc

instance (a b : Char) : Decidable (no_ws_pair a b) :=
  inferInstanceAs (Decidable ¬(is_space a = true ∧ is_space b = true))

/-- Executable check for `List.Chain' no_ws_pair`. -/
def chain_ws_ok : List Char → Bool
  | [] => true
  | [_] => true
  | a :: b :: rest => !(is_space a && is_space b) && chain_ws_ok (b :: rest)

theorem chain'_of_ws_ok : ∀ (l : List Char), chain_ws_ok l = true →
    List.Chain' no_ws_pair l
  | [], _ => List.chain'_nil
  | [a], _ => List.chain'_singleton a
  | a :: b :: rest, h => by
      rw [chain_ws_ok, Bool.and_eq_true] at h
      rw [List.chain'_cons]
      refine ⟨?_, chain'_of_ws_ok (b :: rest) h.2⟩
      intro hc
      rw [hc.1, hc.2] at h
      simp at h

theorem good_head_not_ws {l : List Char} (g : good_str l) :
    ∀ c, l.head? = some c → is_space c = false := by
  intro c hc
  by_cases hw : is_space c = true
  · have hmem : c ∈ l := by
      cases l with
      | nil => cases hc
      | cons x xs =>
          rw [List.head?_cons, Option.some.injEq] at hc
          exact hc ▸ List.mem_cons_self x xs
    have hsp : c = ' ' := g.2.2.1 c hmem hw
    have hpunct := g.2.2.2.2.1 c hc
    rw [hsp] at hpunct
    cases hpunct
  · simpa using hw

theorem good_last_not_ws {l : List Char} (g : good_str l) :
    ∀ c, l.getLast? = some c → is_space c = false := by
  intro c hc
  by_cases hw : is_space c = true
  · have hmem : c ∈ l := by
      have := List.mem_of_mem_getLast? (by rw [Option.mem_def]; exact hc)
      exact this
    have hsp : c = ' ' := g.2.2.1 c hmem hw
    have hpunct := g.2.2.2.2.2 c hc
    rw [hsp] at hpunct
    cases hpunct
  · simpa using hw

theorem strip_ws_eq_self (l : List Char)
    (hh : ∀ c, l.head? = some c → is_space c = false)
    (hl : ∀ c, l.getLast? = some c → is_space c = false) :
    strip_ws l = l := by
  rw [strip_ws]
  have h1 : l.dropWhile is_space = l := by
    cases l with
    | nil => rfl
    | cons x xs =>
        rw [List.dropWhile_cons, if_neg (by rw [hh x rfl]; simp)]
  rw [h1]
  have h2 : l.reverse.dropWhile is_space = l.reverse := by
    cases hr : l.reverse with
    | nil => rfl
    | cons x xs =>
        have hx : l.getLast? = some x := by
          rw [← List.head?_reverse, hr, List.head?_cons]
        rw [List.dropWhile_cons, if_neg (by rw [hl x hx]; simp)]
  rw [h2, List.reverse_reverse]

set_option maxHeartbeats 2000000 in
/-- C6 (amended): `_normalize_phrase` lowercases (no ASCII uppercase letter
survives), replaces **en** dashes with hyphens (no en dash survives),
collapses whitespace runs to single spaces, and strips spaces and sentence
punctuation from both ends.  (Em dashes are *not* replaced — see the
counterexample theorem.) -/
theorem c6_normalize_properties (s : String) :
    good_str (normalize_phrase s).toList := by
  have h5 := normalize_stage5_good s
  have h6 := sub_word_good "one touch" "one-touch" (by decide) (by decide)
    (opt_all 'o' (by decide) rfl) (opt_all 'h' (by decide) rfl)
    (chain'_of_ws_ok _ (by decide)) _ h5
  have h7 := sub_word_good "two touch" "two-touch" (by decide) (by decide)
    (opt_all 't' (by decide) rfl) (opt_all 'h' (by decide) rfl)
    (chain'_of_ws_ok _ (by decide)) _ h6
  have h8 := sub_word_good "three plus touch" "three-plus-touch" (by decide)
    (by decide) (opt_all 't' (by decide) rfl) (opt_all 'h' (by decide) rfl)
    (chain'_of_ws_ok _ (by decide)) _ h7
  have h9 := sub_word_good "carry pass" "carry then pass" (by decide)
    (by decide) (opt_all 'c' (by decide) rfl) (opt_all 's' (by decide) rfl)
    (chain'_of_ws_ok _ (by decide)) _ h8
  show good_str (strip_ws (sub_word "carry pass" "carry then pass"
    (sub_word "three plus touch" "three-plus-touch"
      (sub_word "two touch" "two-touch"
        (sub_word "one touch" "one-touch"
          (strip_set sentence_punct (collapse_ws
            (((s.toList.map lower_char).map
                (fun c => if c = '–' then '-' else c)).map
              (fun c => if c = ',' ∨ c = ':' ∨ c = ';' then ' ' else c)))))))))
  rw [strip_ws_eq_self _ (good_head_not_ws h9) (good_last_not_ws h9)]
  exact h9

theorem c6_normalize_properties_witness :
    '–' ∉ (normalize_phrase "A–B  C!").toList ∧
    List.Chain' no_ws_pair (normalize_phrase "A–B  C!").toList :=
  ⟨(c6_normalize_properties "A–B  C!").2.1,
   (c6_normalize_properties "A–B  C!").2.2.2.1⟩

/-- C6 counterexample: the claim says em dashes are replaced with hyphens,
but `_normalize_phrase` only replaces the en dash `–` (U+2013): the em dash
`—` (U+2014) passes through untouched. -/
theorem c6_em_dash_not_replaced :
    normalize_phrase "a—b" = "a—b" ∧
    '—' ∈ (normalize_phrase "a—b").toList ∧
    normalize_phrase "a–b" = "a-b" :=
  ⟨rfl, by decide, rfl⟩
